import Mathlib

/-!
Verification of the workflow-graph semantics of the ollama-deep-researcher
repository (deep-research loop in `src/assistant/deep_research/graph.py` and
newsletter pipeline in `src/assistant/newsletter/graph.py`).

The Python node functions are shallowly embedded as Lean functions over
explicit state records mirroring the dataclasses in
`src/assistant/common/state.py` and `src/assistant/newsletter/state.py`.
External collaborators (the LLM and the search tool) are modelled as oracle
records: each oracle field maps the exact arguments the Python code passes to
the collaborator to the outcome of the call (a returned value, a parse
result, or a raised exception).  The LangGraph executor is modelled as a
step function over (node, state) configurations following the edge tables
declared with `add_edge` / `add_conditional_edges`; a run terminates when the
current node has no outgoing edge, and aborts when a node lets an exception
escape.

Modelling notes, applied uniformly:

* Python `str` becomes `String`; `None`-able strings become `Option String`.
  A value interpolated into an f-string becomes `pyStr` of the option
  (Python renders `None` as "None").
* Python `dict` (`category_summaries`) becomes an insertion-ordered
  association list; `dictInsert` overwrites in place or appends, exactly as
  a Python dict does.
* The elements of a search tool's `results` list are modelled as
  `SearchResult` records carrying the `title`/`url`/`content` keys the tools
  produce; only `url` is read by the graphs.
* LLM calls that the claims never condition on raising are modelled as
  returning a response; whether that response parses into the structure the
  node expects is decided by the oracle.  Search-tool calls may additionally
  raise (`SearchOutcome.raise`), because the claims are about how the nodes
  contain such failures.
-/

/-- One element of a search tool's `results` list (`title`, `url`, `content`
keys; `raw_content` is never read by the graphs and is omitted). -/
structure SearchResult where
  title : String
  url : String
  content : String
deriving Repr, DecidableEq

/-- Shape of the Python value returned by a search tool call, as far as the
graphs inspect it: `isinstance(x, dict) and "results" in x` selects
`withResults`; a dict lacking a `results` key is `dictNoResults`; any
non-dict value (on which `.get` raises `AttributeError`) is `nonDict`. -/
inductive SearchValue where
  | withResults (rs : List SearchResult)
  | dictNoResults
  | nonDict
deriving Repr, DecidableEq

/-- Outcome of invoking the search tool: either it returns a value or it
raises an exception into the calling node. -/
inductive SearchOutcome where
  | raise
  | ok (v : SearchValue)
deriving Repr, DecidableEq

/-- Outcome of an LLM call in the research graph: the call either raises, or
returns a response whose relevant parse result is `val`. -/
inductive LLMOut (α : Type) where
  | raise
  | reply (val : α)
deriving Repr, DecidableEq

/-- One parsed article summary (`{title, summary, url}`) as consumed by
`generate_newsletter`. -/
structure Article where
  title : String
  summary : String
  url : String
deriving Repr, DecidableEq

/-- Python string rendering of an optional string: `None` renders as
"None" in f-strings, and a Python `None` dict key is modelled by the same
string (the two are never distinguished by any claim). -/
def pyStr : Option String → String
  | none => "None"
  | some s => s

/-- Python truthiness test `not x` for an optional string (`None` and the
empty string are falsy). -/
def optFalsy : Option String → Bool
  | none => true
  | some s => s.isEmpty

/-- The `category_summaries` dict: an insertion-ordered association list from
category name to list of article summaries. -/
abbrev SummaryDict := List (String × List Article)

/-- Membership test `k in d` on the dict. -/
def dictContains (d : SummaryDict) (k : String) : Bool :=
  d.any (fun p => p.1 == k)

/-- Assignment `d[k] = v` on the dict: overwrite in place if the key exists,
otherwise append (Python dicts preserve insertion order). -/
def dictInsert (d : SummaryDict) (k : String) (v : List Article) : SummaryDict :=
  if dictContains d k then d.map (fun p => if p.1 == k then (k, v) else p)
  else d ++ [(k, v)]

/-- The key list of the dict, in insertion order. -/
def dictKeys (d : SummaryDict) : List String :=
  d.map (fun p => p.1)

/-- Lookup `d.get(k, [])` on the dict. -/
def dictGetD (d : SummaryDict) (k : String) : List Article :=
  match d.find? (fun p => p.1 == k) with
  | some p => p.2
  | none => []

namespace DeepResearch

/-- The `ResearchState` dataclass of `src/assistant/common/state.py`
(`max_iterations` and the loop counter are the non-negative integers the
graph manipulates).  The contents stored in `web_research_results` by
`search_web` are abstracted to the tool's `results` list when the returned
value carries one (Python's `list.extend` over the returned object is never
read back by any node or claim: `update_summary` only joins it into a
prompt, then clears it). -/
structure ResearchState where
  search_query : String
  web_research_results : List SearchResult
  sources_gathered : List String
  research_topic : String
  research_loop_count : Nat
  running_summary : String
  max_iterations : Nat
deriving Repr, DecidableEq

/-- Collaborator oracle for the research graph.  Each field receives exactly
the arguments the Python node passes to the collaborator. -/
structure ROracle where
  genQuery : String → LLMOut (Option String)
  search : String → SearchOutcome
  summarize : String → List SearchResult → LLMOut String
  reflect : String → String → LLMOut (Option String)

/-- The `initialize_state` node: resets counter and buffers (it does not
touch `search_query`, `research_topic` or `max_iterations`). -/
def initialize_state (s : ResearchState) : ResearchState :=
  { s with research_loop_count := 0, web_research_results := [],
           sources_gathered := [], running_summary := "" }

/-- The `generate_search_query` node: only `json.JSONDecodeError`/`KeyError`
are caught (parse failure falls back to the topic); an exception from the
LLM call itself propagates. -/
def generate_search_query (O : ROracle) (s : ResearchState) :
    Except Unit ResearchState :=
  match O.genQuery s.research_topic with
  | .raise => .error ()
  | .reply parsed => .ok { s with search_query := parsed.getD s.research_topic }

/-- Elements appended to `web_research_results` by
`state.web_research_results.extend(search_results)`; see the abstraction
note on `ResearchState.web_research_results`. -/
def extendElems : SearchValue → List SearchResult
  | .withResults rs => rs
  | _ => []

/-- State update performed by `search_web` on a returned search value:
extend the results buffer, and append the result URLs to `sources_gathered`
when the value is a dict carrying `results`. -/
def searchUpdate (v : SearchValue) (s : ResearchState) : ResearchState :=
  let s1 := { s with web_research_results := s.web_research_results ++ extendElems v }
  match v with
  | .withResults rs =>
      { s1 with sources_gathered := s1.sources_gathered ++ rs.map SearchResult.url }
  | _ => s1

/-- The `search_web` node: the tool invocation is not wrapped in any
`try`/`except`, so a raising tool propagates its exception. -/
def search_web (O : ROracle) (s : ResearchState) : Except Unit ResearchState :=
  match O.search s.search_query with
  | .raise => .error ()
  | .ok v => .ok (searchUpdate v s)

/-- The summary argument passed to the summarizer prompt:
`state.running_summary or "No existing summary."`. -/
def currentSummaryArg (s : ResearchState) : String :=
  if s.running_summary.isEmpty then "No existing summary." else s.running_summary

/-- The `update_summary` node: stores the response content as the new
running summary and clears the consumed results buffer. -/
def update_summary (O : ROracle) (s : ResearchState) : Except Unit ResearchState :=
  match O.summarize (currentSummaryArg s) s.web_research_results with
  | .raise => .error ()
  | .reply txt => .ok { s with running_summary := txt, web_research_results := [] }

/-- The `reflect_and_identify_gaps` node: on parse failure falls back to the
templated query, and unconditionally increments the loop counter. -/
def reflect_and_identify_gaps (O : ROracle) (s : ResearchState) :
    Except Unit ResearchState :=
  match O.reflect s.running_summary s.research_topic with
  | .raise => .error ()
  | .reply parsed =>
      .ok { s with
              search_query :=
                parsed.getD ("latest developments in " ++ s.research_topic),
              research_loop_count := s.research_loop_count + 1 }

/-- The loop predicate `should_continue_research`. -/
def should_continue_research (s : ResearchState) : Bool :=
  decide (s.research_loop_count < s.max_iterations)

/-- The nodes of the research graph, as registered with `add_node`. -/
inductive RNode where
  | init
  | generateQuery
  | searchWeb
  | updateSummary
  | reflect
deriving Repr, DecidableEq

/-- Node dispatch for the research graph. -/
def applyR (O : ROracle) : RNode → ResearchState → Except Unit ResearchState
  | .init, s => .ok (initialize_state s)
  | .generateQuery, s => generate_search_query O s
  | .searchWeb, s => search_web O s
  | .updateSummary, s => update_summary O s
  | .reflect, s => reflect_and_identify_gaps O s

/-- Successor table of the research graph, from its `add_edge` /
`add_conditional_edges` calls.  `none` would mean "no outgoing edge, run
ends here"; the graph as defined gives every node a successor. -/
def researchNext : RNode → ResearchState → Option RNode
  | .init, _ => some .generateQuery
  | .generateQuery, _ => some .searchWeb
  | .searchWeb, _ => some .updateSummary
  | .updateSummary, _ => some .reflect
  | .reflect, s =>
      some (if should_continue_research s then .searchWeb else .updateSummary)

/-- A configuration of the research executor: still running at a node,
finished (a node with no outgoing edge completed), or aborted by an escaped
exception. -/
inductive RunStatus where
  | running (n : RNode) (s : ResearchState)
  | finished (s : ResearchState)
  | aborted
deriving Repr, DecidableEq

/-- One executor superstep: run the current node, then follow its
(conditional) edge evaluated on the post-node state. -/
def researchStep (O : ROracle) : RunStatus → RunStatus
  | .running n s =>
      match applyR O n s with
      | .error _ => .aborted
      | .ok s1 =>
          match researchNext n s1 with
          | some n1 => .running n1 s1
          | none => .finished s1
  | st => st

/-- The run after `k` supersteps from the entry point `initialize`. -/
def researchRun (O : ROracle) (s0 : ResearchState) : Nat → RunStatus
  | 0 => .running .init s0
  | k + 1 => researchStep O (researchRun O s0 k)

/-- Oracles under which no collaborator call raises (every call returns a
response, possibly an unparseable one). -/
structure RaiseFree (O : ROracle) : Prop where
  genQuery : ∀ t, ∃ p, O.genQuery t = LLMOut.reply p
  search : ∀ q, ∃ v, O.search q = SearchOutcome.ok v
  summarize : ∀ a b, ∃ t, O.summarize a b = LLMOut.reply t
  reflect : ∀ a b, ∃ p, O.reflect a b = LLMOut.reply p

end DeepResearch

namespace Newsletter

/-- The `NewsletterState` dataclass of `src/assistant/newsletter/state.py`
(the one the newsletter graph imports).  `web_research_results` starts as a
Python list and later holds the raw value returned by the search tool, so it
is modelled by a sum of the two shapes. -/
inductive WebResults where
  | emptyList
  | value (v : SearchValue)
deriving Repr, DecidableEq

/-- The newsletter state record. -/
structure NewsletterState where
  date : Option String
  categories : List String
  current_category : Option String
  search_query : String
  web_research_results : WebResults
  search_tool_name : String
  category_summaries : SummaryDict
  newsletter_summary : String
  sources_gathered : List String
deriving Repr, DecidableEq

/-- Environment of the newsletter graph: the values captured by the node
closures (`datetime.now()` and the configured tool name) and the
collaborator oracles, each receiving exactly the arguments the Python node
passes.  `genQuery` is `Except`-valued because the node's `try` block spans
the whole LLM call (any exception, not just a parse failure, selects the
fallback); `summarize` is the parse result of a returned summarizer
response ( `none` = the response did not parse into a `summaries` list). -/
structure NEnv where
  now : String
  toolName : String
  genQuery : Option String → Option String → Except Unit String
  search : String → SearchOutcome
  summarize : String → WebResults → Option (List Article)

/-- The default category list filled in by `initialize_state`. -/
def defaultCategories : List String :=
  ["Big Tech & Startups",
   "Science & Futuristic Technology",
   "Programming, Design & Data Science"]

/-- The `initialize_state` node: preserve-if-present semantics for `date`,
`categories` and `current_category` (Python truthiness), then reset every
processing buffer.  `state.categories[0]` is only reached with a nonempty
list because an empty (falsy) one was just replaced by the defaults, so
`headI` never takes its default. -/
def initialize_state (E : NEnv) (s : NewsletterState) : NewsletterState :=
  let date := if optFalsy s.date then some E.now else s.date
  let cats := if s.categories.isEmpty then defaultCategories else s.categories
  let current :=
    if optFalsy s.current_category then some cats.headI else s.current_category
  { date := date, categories := cats, current_category := current,
    search_query := "", web_research_results := .emptyList,
    search_tool_name := E.toolName, category_summaries := [],
    newsletter_summary := "", sources_gathered := [] }

/-- The fallback query `f"{state.current_category} latest news {state.date}"`. -/
def fallbackQuery (s : NewsletterState) : String :=
  pyStr s.current_category ++ " latest news " ++ pyStr s.date

/-- The `generate_search_query` node: the `try` block spans the LLM call and
the parse, so any failure selects the deterministic fallback query. -/
def generate_search_query (E : NEnv) (s : NewsletterState) : NewsletterState :=
  match E.genQuery s.current_category s.date with
  | .ok q => { s with search_query := q }
  | .error _ => { s with search_query := fallbackQuery s }

/-- The `search_news` node: the whole search interaction is wrapped in
`try`/`except`.  A raising tool, or a returned non-dict value (whose `.get`
raises `AttributeError`), ends in the handler that stores `{"results": []}`;
a dict with a `results` list is stored and its URLs appended to
`sources_gathered`. -/
def search_news (E : NEnv) (s : NewsletterState) : NewsletterState :=
  match E.search s.search_query with
  | .raise => { s with web_research_results := .value (.withResults []) }
  | .ok v =>
      match v with
      | .withResults rs =>
          { s with web_research_results := .value v,
                   sources_gathered := s.sources_gathered ++ rs.map SearchResult.url }
      | .dictNoResults => { s with web_research_results := .value v }
      | .nonDict => { s with web_research_results := .value (.withResults []) }

/-- The `summarize_category` node: parse the summarizer response; on parse
failure record an empty summary list for the current category.  The dict key
is `state.current_category` (see `pyStr` for the `None` modelling). -/
def summarize_category (E : NEnv) (s : NewsletterState) : NewsletterState :=
  match E.summarize (pyStr s.current_category) s.web_research_results with
  | some arts =>
      { s with category_summaries :=
          dictInsert s.category_summaries (pyStr s.current_category) arts }
  | none =>
      { s with category_summaries :=
          dictInsert s.category_summaries (pyStr s.current_category) [] }

/-- The `update_category` node: `categories.index(current_category)` raising
(current is `None` or not an element) is caught and the state left as it is;
otherwise advance to the next category when one exists and reset the
search-related fields. -/
def update_category (s : NewsletterState) : NewsletterState :=
  match s.current_category with
  | none => s
  | some c =>
      let i := s.categories.indexOf c
      if i < s.categories.length then
        if i + 1 < s.categories.length then
          { s with current_category := some (s.categories.getD (i + 1) ""),
                   search_query := "",
                   web_research_results := .emptyList }
        else s
      else s

/-- The count `len([cat for cat in state.categories if cat in
state.category_summaries])` computed by `should_process_next_category`
(positions, not distinct keys: duplicates in `categories` count twice). -/
def processedCount (s : NewsletterState) : Nat :=
  (s.categories.filter (fun c => dictContains s.category_summaries c)).length

/-- The `should_process_next_category` predicate: stop (return `false`) once
the number of list positions whose category already appears in
`category_summaries` reaches `min(len(categories), 2)`; otherwise continue
exactly when the current category's (first) index has a successor.  A failed
index lookup is caught and also stops. -/
def should_process_next_category (s : NewsletterState) : Bool :=
  let processed := processedCount s
  let maxNormal := min s.categories.length 2
  if processed ≥ maxNormal then false
  else
    match s.current_category with
    | none => false
    | some c =>
        let i := s.categories.indexOf c
        if i < s.categories.length then decide (i + 1 < s.categories.length)
        else false

/-- One iteration of the catch-up loop in `process_remaining_categories`:
point the state at the category, build the deterministic query, search
synchronously and summarize.  The outer `try` spans search, URL extraction
and summarization, and its handler stores `{"results": []}` and an empty
summary for the category; the inner parse failure also stores an empty
summary. -/
def processOne (E : NEnv) (s : NewsletterState) (category : String) :
    NewsletterState :=
  let s := { s with current_category := some category,
                    search_query := category ++ " latest news " ++ pyStr s.date }
  match E.search s.search_query with
  | .raise =>
      { s with web_research_results := .value (.withResults []),
               category_summaries :=
                 dictInsert s.category_summaries (pyStr s.current_category) [] }
  | .ok v =>
      match v with
      | .nonDict =>
          { s with web_research_results := .value (.withResults []),
                   category_summaries :=
                     dictInsert s.category_summaries (pyStr s.current_category) [] }
      | .dictNoResults =>
          summarize_category E { s with web_research_results := .value v }
      | .withResults rs =>
          summarize_category E
            { s with web_research_results := .value v,
                     sources_gathered :=
                       s.sources_gathered ++ rs.map SearchResult.url }

/-- The `process_remaining_categories` node (CatchupPass): the list of
unprocessed categories is computed once up front, then each is processed in
declared order (the `if unprocessed_categories:` guard only controls
logging; folding over the empty list is the same no-op). -/
def process_remaining_categories (E : NEnv) (s : NewsletterState) :
    NewsletterState :=
  (s.categories.filter (fun c => !dictContains s.category_summaries c)).foldl
    (processOne E) s

/-- The emoji table of `generate_newsletter` (`category_emojis.get(c, "")`). -/
def categoryEmoji (c : String) : String :=
  if c == "Big Tech & Startups" then "📱"
  else if c == "Science & Futuristic Technology" then "🚀"
  else if c == "Programming, Design & Data Science" then "💻"
  else ""

/-- The text appended for one article. -/
def renderArticle (a : Article) : String :=
  a.title ++ "\n\n" ++ a.summary ++ "\n" ++ "Read more: " ++ a.url ++ "\n\n"

/-- The text appended for one category section. -/
def renderCategory (d : SummaryDict) (c : String) : String :=
  categoryEmoji c ++ "\n" ++ c ++ "\n" ++
    String.join ((dictGetD d c).map renderArticle)

/-- The defensive completeness loop at the top of `generate_newsletter`:
give every declared category still missing from the dict an empty summary
list. -/
def fillMissing (cats : List String) (d : SummaryDict) : SummaryDict :=
  cats.foldl (fun d c => if dictContains d c then d else dictInsert d c []) d

/-- The `generate_newsletter` node: first the defensive completeness loop
fills an empty summary list for every declared category still missing, then
the newsletter text is rendered deterministically from the state (the LLM
chain built in this node is never invoked). -/
def generate_newsletter (s : NewsletterState) : NewsletterState :=
  let sums := fillMissing s.categories s.category_summaries
  let body :=
    "🏗️ Builder's News " ++ pyStr s.date ++ "\n\n" ++
      String.join (s.categories.map (renderCategory sums))
  { s with category_summaries := sums, newsletter_summary := body }

/-- The `end_workflow` node returns the state unchanged. -/
def end_workflow (s : NewsletterState) : NewsletterState := s

/-- The nodes of the newsletter graph, as registered with `add_node`. -/
inductive NNode where
  | init
  | generateQuery
  | search
  | summarize
  | updateCategory
  | processRemaining
  | generateNewsletter
  | endNode
deriving Repr, DecidableEq

/-- Node dispatch for the newsletter graph.  Every handler that a claim
conditions on is total: the `try` blocks shown in the source catch the
failures the oracles can inject (see `NEnv`). -/
def applyN (E : NEnv) : NNode → NewsletterState → NewsletterState
  | .init, s => initialize_state E s
  | .generateQuery, s => generate_search_query E s
  | .search, s => search_news E s
  | .summarize, s => summarize_category E s
  | .updateCategory, s => update_category s
  | .processRemaining, s => process_remaining_categories E s
  | .generateNewsletter, s => generate_newsletter s
  | .endNode, s => end_workflow s

/-- Successor table of the newsletter graph from its `add_edge` /
`add_conditional_edges` calls; the `end` node has no outgoing edge, so the
run terminates after it. -/
def newsNext : NNode → NewsletterState → Option NNode
  | .init, _ => some .generateQuery
  | .generateQuery, _ => some .search
  | .search, _ => some .summarize
  | .summarize, _ => some .updateCategory
  | .updateCategory, s =>
      some (if should_process_next_category s then .generateQuery
            else .processRemaining)
  | .processRemaining, _ => some .generateNewsletter
  | .generateNewsletter, _ => some .endNode
  | .endNode, _ => none

/-- Fuelled executor for the newsletter graph: run the current node, follow
its edge on the post-node state, and return the final state when a node
with no outgoing edge has run.  `none` means the fuel ran out first. -/
def newsExec (E : NEnv) : Nat → NNode → NewsletterState → Option NewsletterState
  | 0, _, _ => none
  | fuel + 1, n, s =>
      let s1 := applyN E n s
      match newsNext n s1 with
      | none => some s1
      | some n1 => newsExec E fuel n1 s1

/-- A full newsletter run: execute from the entry point `initialize`. -/
def newsletterRun (E : NEnv) (fuel : Nat) (s0 : NewsletterState) :
    Option NewsletterState :=
  newsExec E fuel .init s0

/-- One pass of the bounded per-category cycle
(`generate_query → search → summarize → update_category`). -/
def pass (E : NEnv) (s : NewsletterState) : NewsletterState :=
  update_category (summarize_category E (search_news E (generate_search_query E s)))

/-- The invariant carried through a newsletter run after initialization:
the current category is a declared category, every summaries key is a
declared category, and the key list has no duplicates. -/
def NInv (s : NewsletterState) : Prop :=
  (∃ c, s.current_category = some c ∧ c ∈ s.categories) ∧
    (∀ k ∈ dictKeys s.category_summaries, k ∈ s.categories) ∧
    (dictKeys s.category_summaries).Nodup

/-- The effective category list of a run: the caller's list, or the default
three categories when the caller's list is empty/unset. -/
def effCategories (s : NewsletterState) : List String :=
  if s.categories.isEmpty then defaultCategories else s.categories

/-- Caller input whose current category, when set, is a declared one. -/
def WFInput (s : NewsletterState) : Prop :=
  optFalsy s.current_category = true ∨
    ∃ c, s.current_category = some c ∧ c ∈ effCategories s

/-- The per-node precondition carried through the executor induction: the
run invariant everywhere, plus key completeness once the end node is
reached. -/
def nodePre : NNode → NewsletterState → Prop
  | .endNode, s => NInv s ∧ ∀ c ∈ s.categories, c ∈ dictKeys s.category_summaries
  | _, s => NInv s

/-- The spec's stop condition (a): the count of declared-category positions
already present in the summaries dict has reached `min(K, 2)`. -/
def spec_cap_reached (s : NewsletterState) : Prop :=
  processedCount s ≥ min s.categories.length 2

/-- The spec's stop condition (b), with "is the last category" read as the
code computes it: the first occurrence of the current category sits at the
last list position. -/
def spec_on_last (s : NewsletterState) (c : String) : Prop :=
  s.categories.indexOf c + 1 = s.categories.length

end Newsletter

/-- A concrete newsletter environment whose collaborators always fail
(LLM responses unparseable, search raising); used to evaluate concrete
runs. -/
def sampleEnv : Newsletter.NEnv :=
  { now := "2025-01-01", toolName := "duckduckgo",
    genQuery := fun _ _ => Except.error (),
    search := fun _ => SearchOutcome.raise,
    summarize := fun _ _ => none }

/-- A newsletter environment whose search tool returns a non-dict value
(on which the node's `.get` raises `AttributeError`). -/
def nonDictEnv : Newsletter.NEnv :=
  { sampleEnv with search := fun _ => SearchOutcome.ok .nonDict }

/-- A caller input for the newsletter graph: the given category list, every
other field left at its dataclass default. -/
def freshInput (cats : List String) : Newsletter.NewsletterState :=
  { date := none, categories := cats, current_category := none,
    search_query := "", web_research_results := .emptyList,
    search_tool_name := "duckduckgo", category_summaries := [],
    newsletter_summary := "", sources_gathered := [] }

/-- Caller input with a current category that is not one of its declared
categories. -/
def rogueInput : Newsletter.NewsletterState :=
  { freshInput ["A"] with current_category := some "Z" }

/-- Caller input with two declared categories and a foreign current one. -/
def rogueInputAB : Newsletter.NewsletterState :=
  { freshInput ["A", "B"] with current_category := some "Z" }

/-- A state in which the single declared category already has a summaries
entry. -/
def completeState : Newsletter.NewsletterState :=
  { freshInput ["A"] with current_category := some "A",
                          category_summaries := [("A", [])] }

/-- A concrete raise-free research oracle: every call returns, every parse
fails. -/
def sampleROracle : DeepResearch.ROracle :=
  { genQuery := fun _ => .reply none,
    search := fun _ => .ok (.withResults []),
    summarize := fun _ _ => .reply "",
    reflect := fun _ _ => .reply none }

/-- A research oracle whose search tool raises. -/
def raisingROracle : DeepResearch.ROracle :=
  { sampleROracle with search := fun _ => SearchOutcome.raise }

/-- A concrete research input state with the given iteration bound. -/
def sampleResearchInput (maxIt : Nat) : DeepResearch.ResearchState :=
  { search_query := "", web_research_results := [], sources_gathered := [],
    research_topic := "T", research_loop_count := 0, running_summary := "",
    max_iterations := maxIt }

/-- A research input whose topic is the empty string. -/
def emptyTopicInput : DeepResearch.ResearchState :=
  { sampleResearchInput 3 with research_topic := "" }

/-- A research input carrying stale caller-supplied sources. -/
def staleSourcesInput : DeepResearch.ResearchState :=
  { sampleResearchInput 1 with sources_gathered := ["https://example.com"] }

theorem getD_mem_of_lt (l : List String) (i : Nat) (h : i < l.length) :
    l.getD i "" ∈ l := by
  rw [List.getD_eq_get? , List.get?_eq_get h]
  exact List.get_mem l i h

theorem headI_mem_of_ne (l : List String) (h : l ≠ []) : l.headI ∈ l := by
  cases l with
  | nil => simp at h
  | cons a t => simp [List.headI]

theorem pair_sublist {α : Type} (l : List α) (i : Nat) (a : α)
    (h1 : l.get? i = some a) (h2 : l.get? (i + 1) = some a) :
    List.Sublist [a, a] l := by
  induction l generalizing i with
  | nil => simp at h1
  | cons b t ih =>
      cases i with
      | zero =>
          simp only [List.get?] at h1 h2
          cases h1
          exact (List.cons_sublist_cons).mpr
            ((List.singleton_sublist).mpr (List.get?_mem h2))
      | succ j =>
          simp only [List.get?] at h1 h2
          exact (ih j h1 h2).cons b

theorem dictContains_iff (d : SummaryDict) (k : String) :
    dictContains d k = true ↔ k ∈ dictKeys d := by
  simp only [dictContains, dictKeys, List.any_eq_true, List.mem_map]
  constructor
  · rintro ⟨p, hp, he⟩
    exact ⟨p, hp, beq_iff_eq.mp he⟩
  · rintro ⟨p, hp, he⟩
    exact ⟨p, hp, beq_iff_eq.mpr he⟩

theorem dictKeys_insert (d : SummaryDict) (k : String) (v : List Article) :
    dictKeys (dictInsert d k v) =
      if dictContains d k then dictKeys d else dictKeys d ++ [k] := by
  unfold dictInsert
  by_cases h : dictContains d k = true
  · simp only [h, if_true]
    unfold dictKeys
    rw [List.map_map]
    apply List.map_congr_left
    intro p _
    by_cases hp : p.1 = k
    · simp [hp]
    · simp [hp]
  · simp only [h]
    simp [dictKeys]

theorem mem_dictKeys_insert (d : SummaryDict) (k a : String) (v : List Article) :
    a ∈ dictKeys (dictInsert d k v) ↔ a ∈ dictKeys d ∨ a = k := by
  rw [dictKeys_insert]
  by_cases h : dictContains d k = true
  · simp only [h, if_true]
    constructor
    · exact fun ha => Or.inl ha
    · rintro (ha | rfl)
      · exact ha
      · exact (dictContains_iff d a).mp h
  · simp [h]

theorem dictKeys_insert_nodup (d : SummaryDict) (k : String) (v : List Article)
    (h : (dictKeys d).Nodup) : (dictKeys (dictInsert d k v)).Nodup := by
  rw [dictKeys_insert]
  by_cases hc : dictContains d k = true
  · simpa [hc] using h
  · simp only [hc, if_false, Bool.false_eq_true]
    rw [List.nodup_append]
    refine ⟨h, List.nodup_singleton k, ?_⟩
    intro a ha hb
    simp only [List.mem_singleton] at hb
    subst hb
    exact hc ((dictContains_iff d a).mpr ha)

theorem self_mem_dictKeys_insert (d : SummaryDict) (k : String) (v : List Article) :
    k ∈ dictKeys (dictInsert d k v) := by
  rw [mem_dictKeys_insert]
  exact Or.inr rfl

theorem mem_dictKeys_insert_of_mem (d : SummaryDict) (k a : String)
    (v : List Article) (h : a ∈ dictKeys d) : a ∈ dictKeys (dictInsert d k v) := by
  rw [mem_dictKeys_insert]
  exact Or.inl h

namespace Newsletter

/-- Shape of the `generate_search_query` node's effect: only `search_query`
changes, whichever branch is taken. -/
theorem generate_search_query_shape (E : NEnv) (s : NewsletterState) :
    ∃ q, generate_search_query E s = { s with search_query := q } := by
  unfold generate_search_query
  cases E.genQuery s.current_category s.date with
  | ok q => exact ⟨q, rfl⟩
  | error e => exact ⟨fallbackQuery s, rfl⟩

/-- Shape of the `search_news` node's effect: only `web_research_results`
changes and `sources_gathered` is extended, whichever branch is taken. -/
theorem search_news_shape (E : NEnv) (s : NewsletterState) :
    ∃ w us, search_news E s =
      { s with web_research_results := w,
               sources_gathered := s.sources_gathered ++ us } := by
  unfold search_news
  cases E.search s.search_query with
  | raise => exact ⟨.value (.withResults []), [], by simp⟩
  | ok v =>
      cases v with
      | withResults rs => exact ⟨_, rs.map SearchResult.url, rfl⟩
      | dictNoResults => exact ⟨.value .dictNoResults, [], by simp⟩
      | nonDict => exact ⟨.value (.withResults []), [], by simp⟩

/-- Shape of the `summarize_category` node's effect: only the summaries
dict changes, by a single insertion at the current category's key. -/
theorem summarize_category_shape (E : NEnv) (s : NewsletterState) :
    ∃ v, summarize_category E s =
      { s with category_summaries :=
          dictInsert s.category_summaries (pyStr s.current_category) v } := by
  unfold summarize_category
  cases E.summarize (pyStr s.current_category) s.web_research_results with
  | some arts => exact ⟨arts, rfl⟩
  | none => exact ⟨[], rfl⟩

/-- Effect analysis of `update_category`: either the state is returned
unchanged (no current category, lookup failure, or no next category), or
the current category advances to the next list entry and the
search-related fields are reset. -/
theorem update_category_cases (s : NewsletterState) :
    update_category s = s ∨
      ∃ c, s.current_category = some c ∧
        s.categories.indexOf c + 1 < s.categories.length ∧
        update_category s =
          { s with current_category :=
                     some (s.categories.getD (s.categories.indexOf c + 1) ""),
                   search_query := "",
                   web_research_results := .emptyList } := by
  unfold update_category
  cases hc : s.current_category with
  | none => exact Or.inl rfl
  | some c =>
      by_cases h1 : s.categories.indexOf c < s.categories.length
      · by_cases h2 : s.categories.indexOf c + 1 < s.categories.length
        · refine Or.inr ⟨c, rfl, h2, ?_⟩
          simp [h1, h2]
        · refine Or.inl ?_
          simp [h1, h2]
      · refine Or.inl ?_
        simp [h1]

theorem initialize_state_categories (E : NEnv) (s : NewsletterState) :
    (initialize_state E s).categories = effCategories s := rfl

theorem effCategories_ne_nil (s : NewsletterState) : effCategories s ≠ [] := by
  unfold effCategories
  by_cases he : s.categories.isEmpty
  · simp [he, defaultCategories]
  · intro hnil
    simp only [he, Bool.false_eq_true, if_false] at hnil
    simp [hnil] at he

theorem initialize_state_current_falsy (E : NEnv) (s : NewsletterState)
    (hf : optFalsy s.current_category = true) :
    (initialize_state E s).current_category = some (effCategories s).headI := by
  simp [initialize_state, effCategories, hf]

theorem initialize_state_current_present (E : NEnv) (s : NewsletterState)
    (c : String) (hc : s.current_category = some c)
    (hf : optFalsy s.current_category = false) :
    (initialize_state E s).current_category = some c := by
  have hf2 : optFalsy (some c) = false := hc ▸ hf
  simp [initialize_state, hc, hf2]

/-- Initialization establishes the run invariant from well-formed input. -/
theorem initialize_state_NInv (E : NEnv) (s : NewsletterState)
    (h : WFInput s) : NInv (initialize_state E s) := by
  refine ⟨?_, by simp [initialize_state, dictKeys], by simp [initialize_state, dictKeys]⟩
  by_cases hf : optFalsy s.current_category = true
  · refine ⟨(effCategories s).headI, initialize_state_current_falsy E s hf, ?_⟩
    rw [initialize_state_categories]
    exact headI_mem_of_ne _ (effCategories_ne_nil s)
  · rcases h with h | ⟨c, hc, hmem⟩
    · exact absurd h hf
    · have hf2 : optFalsy s.current_category = false := by
        simpa using hf
      refine ⟨c, initialize_state_current_present E s c hc hf2, ?_⟩
      rw [initialize_state_categories]
      exact hmem

/-- The three shape-preserving nodes and `update_category` all preserve the
run invariant. -/
theorem NInv_generate_search_query (E : NEnv) (s : NewsletterState)
    (h : NInv s) : NInv (generate_search_query E s) := by
  obtain ⟨q, hq⟩ := generate_search_query_shape E s
  rw [hq]
  exact h

theorem NInv_search_news (E : NEnv) (s : NewsletterState)
    (h : NInv s) : NInv (search_news E s) := by
  obtain ⟨w, us, hw⟩ := search_news_shape E s
  rw [hw]
  exact h

theorem NInv_summarize_category (E : NEnv) (s : NewsletterState)
    (h : NInv s) : NInv (summarize_category E s) := by
  obtain ⟨v, hv⟩ := summarize_category_shape E s
  obtain ⟨⟨c, hc, hcm⟩, hkeys, hnd⟩ := h
  rw [hv]
  refine ⟨⟨c, hc, hcm⟩, ?_, dictKeys_insert_nodup _ _ _ hnd⟩
  intro k hk
  rcases (mem_dictKeys_insert _ _ _ _).mp hk with hk | rfl
  · exact hkeys k hk
  · simpa [hc, pyStr] using hcm

theorem NInv_update_category (s : NewsletterState) (h : NInv s) :
    NInv (update_category s) := by
  rcases update_category_cases s with heq | ⟨c, hc, hlt, heq⟩
  · rw [heq]; exact h
  · obtain ⟨_, hkeys, hnd⟩ := h
    rw [heq]
    exact ⟨⟨_, rfl, getD_mem_of_lt _ _ hlt⟩, hkeys, hnd⟩

/-- Component views of `summarize_category`'s effect. -/
theorem summarize_category_categories (E : NEnv) (s : NewsletterState) :
    (summarize_category E s).categories = s.categories := by
  obtain ⟨v, hv⟩ := summarize_category_shape E s
  rw [hv]

theorem summarize_category_current (E : NEnv) (s : NewsletterState) :
    (summarize_category E s).current_category = s.current_category := by
  obtain ⟨v, hv⟩ := summarize_category_shape E s
  rw [hv]

theorem summarize_category_sources (E : NEnv) (s : NewsletterState) :
    (summarize_category E s).sources_gathered = s.sources_gathered := by
  obtain ⟨v, hv⟩ := summarize_category_shape E s
  rw [hv]

theorem summarize_category_summaries (E : NEnv) (s : NewsletterState) :
    ∃ v, (summarize_category E s).category_summaries =
      dictInsert s.category_summaries (pyStr s.current_category) v := by
  obtain ⟨v, hv⟩ := summarize_category_shape E s
  exact ⟨v, by rw [hv]⟩

/-- `processOne` leaves the category list unchanged. -/
theorem processOne_categories (E : NEnv) (s : NewsletterState) (c : String) :
    (processOne E s c).categories = s.categories := by
  simp only [processOne]
  cases E.search (c ++ " latest news " ++ pyStr s.date) with
  | raise => rfl
  | ok v =>
      cases v with
      | withResults rs =>
          dsimp only
          rw [summarize_category_categories]
      | dictNoResults =>
          dsimp only
          rw [summarize_category_categories]
      | nonDict => rfl

/-- `processOne` sets the current category to the category it processes. -/
theorem processOne_current (E : NEnv) (s : NewsletterState) (c : String) :
    (processOne E s c).current_category = some c := by
  simp only [processOne]
  cases E.search (c ++ " latest news " ++ pyStr s.date) with
  | raise => rfl
  | ok v =>
      cases v with
      | withResults rs =>
          dsimp only
          rw [summarize_category_current]
      | dictNoResults =>
          dsimp only
          rw [summarize_category_current]
      | nonDict => rfl

/-- `processOne` updates the summaries dict by one insertion at the
processed category's key. -/
theorem processOne_summaries (E : NEnv) (s : NewsletterState) (c : String) :
    ∃ v, (processOne E s c).category_summaries =
      dictInsert s.category_summaries c v := by
  simp only [processOne]
  cases E.search (c ++ " latest news " ++ pyStr s.date) with
  | raise => exact ⟨[], by simp [pyStr]⟩
  | ok v =>
      cases v with
      | withResults rs =>
          dsimp only
          obtain ⟨w, hw⟩ := summarize_category_summaries E _
          rw [hw]
          exact ⟨w, by simp [pyStr]⟩
      | dictNoResults =>
          dsimp only
          obtain ⟨w, hw⟩ := summarize_category_summaries E _
          rw [hw]
          exact ⟨w, by simp [pyStr]⟩
      | nonDict => exact ⟨[], by simp [pyStr]⟩

/-- `processOne` only ever appends to `sources_gathered`. -/
theorem processOne_sources (E : NEnv) (s : NewsletterState) (c : String) :
    ∃ us, (processOne E s c).sources_gathered = s.sources_gathered ++ us := by
  simp only [processOne]
  cases E.search (c ++ " latest news " ++ pyStr s.date) with
  | raise => exact ⟨[], by simp⟩
  | ok v =>
      cases v with
      | withResults rs =>
          dsimp only
          rw [summarize_category_sources]
          exact ⟨rs.map SearchResult.url, rfl⟩
      | dictNoResults =>
          dsimp only
          rw [summarize_category_sources]
          exact ⟨[], by simp⟩
      | nonDict => exact ⟨[], by simp⟩

/-- `processOne` preserves the run invariant when the processed category is
a declared one. -/
theorem NInv_processOne (E : NEnv) (s : NewsletterState) (c : String)
    (hc : c ∈ s.categories) (h : NInv s) : NInv (processOne E s c) := by
  obtain ⟨_, hkeys, hnd⟩ := h
  obtain ⟨v, hv⟩ := processOne_summaries E s c
  refine ⟨⟨c, processOne_current E s c, by rw [processOne_categories]; exact hc⟩, ?_, ?_⟩
  · intro k hk
    rw [processOne_categories]
    rw [hv] at hk
    rcases (mem_dictKeys_insert _ _ _ _).mp hk with hk | rfl
    · exact hkeys k hk
    · exact hc
  · rw [hv]
    exact dictKeys_insert_nodup _ _ _ hnd

/-- Folding `processOne` over declared categories preserves the run
invariant. -/
theorem NInv_foldl_processOne (E : NEnv) :
    ∀ (l : List String) (s : NewsletterState), (∀ c ∈ l, c ∈ s.categories) →
      NInv s → NInv (l.foldl (processOne E) s) := by
  intro l
  induction l with
  | nil => intro s _ h; exact h
  | cons c t ih =>
      intro s hl h
      simp only [List.foldl_cons]
      refine ih (processOne E s c) ?_ (NInv_processOne E s c (hl c (by simp)) h)
      intro x hx
      rw [processOne_categories]
      exact hl x (by simp [hx])

/-- Folding `processOne` leaves the category list unchanged. -/
theorem foldl_processOne_categories (E : NEnv) :
    ∀ (l : List String) (s : NewsletterState),
      (l.foldl (processOne E) s).categories = s.categories := by
  intro l
  induction l with
  | nil => intro s; rfl
  | cons c t ih =>
      intro s
      simp only [List.foldl_cons]
      rw [ih, processOne_categories]

/-- The catch-up pass preserves the run invariant. -/
theorem NInv_process_remaining (E : NEnv) (s : NewsletterState) (h : NInv s) :
    NInv (process_remaining_categories E s) := by
  unfold process_remaining_categories
  refine NInv_foldl_processOne E _ s ?_ h
  intro c hc
  exact (List.mem_filter.mp hc).1

theorem process_remaining_categories_frame (E : NEnv) (s : NewsletterState) :
    (process_remaining_categories E s).categories = s.categories := by
  unfold process_remaining_categories
  exact foldl_processOne_categories E _ s

/-- Keys already present survive the fill loop of `generate_newsletter`. -/
theorem mem_fillMissing_of_mem :
    ∀ (cats : List String) (d : SummaryDict) (x : String),
      x ∈ dictKeys d → x ∈ dictKeys (fillMissing cats d) := by
  intro cats
  induction cats with
  | nil => intro d x hx; exact hx
  | cons c t ih =>
      intro d x hx
      unfold fillMissing
      simp only [List.foldl_cons]
      by_cases hc : dictContains d c = true
      · simpa [fillMissing, hc] using ih d x hx
      · simp only [hc, Bool.false_eq_true, if_false]
        exact ih _ x (mem_dictKeys_insert_of_mem _ _ _ _ hx)

/-- Every key of the filled dict was a key before or is a declared
category. -/
theorem mem_fillMissing_elim :
    ∀ (cats : List String) (d : SummaryDict) (x : String),
      x ∈ dictKeys (fillMissing cats d) → x ∈ dictKeys d ∨ x ∈ cats := by
  intro cats
  induction cats with
  | nil => intro d x hx; exact Or.inl hx
  | cons c t ih =>
      intro d x hx
      unfold fillMissing at hx
      simp only [List.foldl_cons] at hx
      by_cases hc : dictContains d c = true
      · rcases ih d x (by simpa [fillMissing, hc] using hx) with h | h
        · exact Or.inl h
        · exact Or.inr (by simp [h])
      · simp only [hc, Bool.false_eq_true, if_false] at hx
        rcases ih _ x hx with h | h
        · rcases (mem_dictKeys_insert _ _ _ _).mp h with h | rfl
          · exact Or.inl h
          · exact Or.inr (by simp)
        · exact Or.inr (by simp [h])

/-- Every declared category is a key of the filled dict. -/
theorem mem_fillMissing_of_cat :
    ∀ (cats : List String) (d : SummaryDict) (c : String),
      c ∈ cats → c ∈ dictKeys (fillMissing cats d) := by
  intro cats
  induction cats with
  | nil => intro d c hc; simp at hc
  | cons a t ih =>
      intro d c hc
      unfold fillMissing
      simp only [List.foldl_cons]
      rcases List.mem_cons.mp hc with rfl | hc
      · by_cases ha : dictContains d c = true
        · rw [if_pos ha]
          exact mem_fillMissing_of_mem t d c ((dictContains_iff d c).mp ha)
        · simp only [ha, Bool.false_eq_true, if_false]
          exact mem_fillMissing_of_mem t _ c (self_mem_dictKeys_insert _ _ _)
      · by_cases ha : dictContains d a = true
        · simpa [fillMissing, ha] using ih d c hc
        · simp only [ha, Bool.false_eq_true, if_false]
          exact ih _ c hc

/-- The fill loop preserves key-list nodup. -/
theorem fillMissing_nodup :
    ∀ (cats : List String) (d : SummaryDict),
      (dictKeys d).Nodup → (dictKeys (fillMissing cats d)).Nodup := by
  intro cats
  induction cats with
  | nil => intro d h; exact h
  | cons c t ih =>
      intro d h
      unfold fillMissing
      simp only [List.foldl_cons]
      by_cases hc : dictContains d c = true
      · simpa [fillMissing, hc] using ih d h
      · simp only [hc, Bool.false_eq_true, if_false]
        exact ih _ (dictKeys_insert_nodup _ _ _ h)

theorem generate_newsletter_summaries (s : NewsletterState) :
    (generate_newsletter s).category_summaries =
      fillMissing s.categories s.category_summaries := rfl

theorem generate_newsletter_frame (s : NewsletterState) :
    (generate_newsletter s).categories = s.categories ∧
      (generate_newsletter s).current_category = s.current_category ∧
      (generate_newsletter s).sources_gathered = s.sources_gathered := by
  exact ⟨rfl, rfl, rfl⟩

/-- `generate_newsletter` preserves the run invariant and makes the key set
complete. -/
theorem NInv_generate_newsletter (s : NewsletterState) (h : NInv s) :
    NInv (generate_newsletter s) ∧
      ∀ c ∈ (generate_newsletter s).categories,
        c ∈ dictKeys (generate_newsletter s).category_summaries := by
  obtain ⟨⟨c, hc, hcm⟩, hkeys, hnd⟩ := h
  constructor
  · refine ⟨⟨c, hc, hcm⟩, ?_, ?_⟩
    · intro k hk
      rw [generate_newsletter_summaries] at hk
      rcases mem_fillMissing_elim _ _ _ hk with h | h
      · exact hkeys k h
      · exact h
    · rw [generate_newsletter_summaries]
      exact fillMissing_nodup _ _ hnd
  · intro x hx
    rw [generate_newsletter_summaries]
    exact mem_fillMissing_of_cat _ _ x hx

end Newsletter

theorem two_le_length_filter {p : String → Bool} {l : List String} {a b : String}
    (ha : a ∈ l) (hb : b ∈ l) (hab : a ≠ b) (hpa : p a = true) (hpb : p b = true) :
    2 ≤ (l.filter p).length := by
  have ha2 : a ∈ (l.filter p).toFinset := by
    simp only [List.mem_toFinset]
    exact List.mem_filter.mpr ⟨ha, hpa⟩
  have hb2 : b ∈ (l.filter p).toFinset := by
    simp only [List.mem_toFinset]
    exact List.mem_filter.mpr ⟨hb, hpb⟩
  have h2 : 1 < (l.filter p).toFinset.card := Finset.one_lt_card.mpr ⟨a, ha2, b, hb2, hab⟩
  calc 2 ≤ (l.filter p).toFinset.card := h2
    _ ≤ (l.filter p).length := List.toFinset_card_le _

theorem two_le_count_of_pair {l : List String} {i : Nat} {a : String}
    (h1 : l.get? i = some a) (h2 : l.get? (i + 1) = some a) : 2 ≤ l.count a := by
  have hs := (pair_sublist l i a h1 h2).count_le a
  simpa using hs

theorem count_le_length_filter {l : List String} {p : String → Bool} {a : String}
    (hpa : p a = true) : l.count a ≤ (l.filter p).length := by
  calc l.count a = (l.filter p).count a := (List.count_filter hpa).symm
    _ ≤ (l.filter p).length := List.count_le_length a _

namespace Newsletter

/-- Elimination view: the predicate only continues when the processed count
is still under the cap and the current category is found with a successor
position. -/
theorem predTrue_elim (s : NewsletterState)
    (h : should_process_next_category s = true) :
    processedCount s < min s.categories.length 2 ∧
      ∃ c, s.current_category = some c ∧
        s.categories.indexOf c + 1 < s.categories.length := by
  unfold should_process_next_category at h
  by_cases h1 : processedCount s ≥ min s.categories.length 2
  · simp [h1] at h
  · refine ⟨Nat.lt_of_not_le h1, ?_⟩
    simp only [ge_iff_le, if_neg h1] at h
    cases hc : s.current_category with
    | none => rw [hc] at h; simp at h
    | some c =>
        rw [hc] at h
        by_cases h2 : s.categories.indexOf c < s.categories.length
        · simp only [h2, if_true, decide_eq_true_eq] at h
          exact ⟨c, rfl, h⟩
        · simp [h2] at h

/-- The predicate stops as soon as the processed count reaches the cap. -/
theorem predFalse_of_cov (s : NewsletterState)
    (h : processedCount s ≥ min s.categories.length 2) :
    should_process_next_category s = false := by
  unfold should_process_next_category
  simp [h]

/-- The predicate stops when the current category is not found in the list
(the exception path). -/
theorem predFalse_of_not_found (s : NewsletterState) (c : String)
    (hc : s.current_category = some c)
    (h : ¬ s.categories.indexOf c < s.categories.length) :
    should_process_next_category s = false := by
  unfold should_process_next_category
  by_cases h1 : processedCount s ≥ min s.categories.length 2
  · simp [h1]
  · simp [h1, hc, h]

/-- Four-way effect analysis of `update_category`, separating the three
unchanged cases. -/
theorem update_category_cases2 (s : NewsletterState) :
    (s.current_category = none ∧ update_category s = s) ∨
      (∃ c, s.current_category = some c ∧
        ¬ s.categories.indexOf c < s.categories.length ∧ update_category s = s) ∨
      (∃ c, s.current_category = some c ∧
        s.categories.indexOf c < s.categories.length ∧
        ¬ s.categories.indexOf c + 1 < s.categories.length ∧
        update_category s = s) ∨
      (∃ c, s.current_category = some c ∧
        s.categories.indexOf c + 1 < s.categories.length ∧
        update_category s =
          { s with current_category :=
                     some (s.categories.getD (s.categories.indexOf c + 1) ""),
                   search_query := "",
                   web_research_results := .emptyList }) := by
  unfold update_category
  cases hc : s.current_category with
  | none => exact Or.inl ⟨rfl, rfl⟩
  | some c =>
      by_cases h1 : s.categories.indexOf c < s.categories.length
      · by_cases h2 : s.categories.indexOf c + 1 < s.categories.length
        · refine Or.inr (Or.inr (Or.inr ⟨c, rfl, h2, ?_⟩))
          simp [h1, h2]
        · refine Or.inr (Or.inr (Or.inl ⟨c, rfl, h1, h2, ?_⟩))
          simp [h1, h2]
      · refine Or.inr (Or.inl ⟨c, rfl, h1, ?_⟩)
        simp [h1]

/-- Component views of `generate_search_query`'s effect. -/
theorem generate_search_query_categories (E : NEnv) (s : NewsletterState) :
    (generate_search_query E s).categories = s.categories := by
  obtain ⟨q, hq⟩ := generate_search_query_shape E s
  rw [hq]

theorem generate_search_query_current (E : NEnv) (s : NewsletterState) :
    (generate_search_query E s).current_category = s.current_category := by
  obtain ⟨q, hq⟩ := generate_search_query_shape E s
  rw [hq]

theorem generate_search_query_summaries (E : NEnv) (s : NewsletterState) :
    (generate_search_query E s).category_summaries = s.category_summaries := by
  obtain ⟨q, hq⟩ := generate_search_query_shape E s
  rw [hq]

theorem generate_search_query_sources (E : NEnv) (s : NewsletterState) :
    (generate_search_query E s).sources_gathered = s.sources_gathered := by
  obtain ⟨q, hq⟩ := generate_search_query_shape E s
  rw [hq]

/-- Component views of `search_news`'s effect. -/
theorem search_news_categories (E : NEnv) (s : NewsletterState) :
    (search_news E s).categories = s.categories := by
  obtain ⟨w, us, hw⟩ := search_news_shape E s
  rw [hw]

theorem search_news_current (E : NEnv) (s : NewsletterState) :
    (search_news E s).current_category = s.current_category := by
  obtain ⟨w, us, hw⟩ := search_news_shape E s
  rw [hw]

theorem search_news_summaries (E : NEnv) (s : NewsletterState) :
    (search_news E s).category_summaries = s.category_summaries := by
  obtain ⟨w, us, hw⟩ := search_news_shape E s
  rw [hw]

theorem search_news_sources (E : NEnv) (s : NewsletterState) :
    ∃ us, (search_news E s).sources_gathered = s.sources_gathered ++ us := by
  obtain ⟨w, us, hw⟩ := search_news_shape E s
  exact ⟨us, by rw [hw]⟩

/-- Component views of `update_category`'s effect on the untouched fields
(used both by the frame claim and internally). -/
theorem update_category_preserves (s : NewsletterState) :
    (update_category s).date = s.date ∧
      (update_category s).categories = s.categories ∧
      (update_category s).category_summaries = s.category_summaries ∧
      (update_category s).sources_gathered = s.sources_gathered ∧
      (update_category s).newsletter_summary = s.newsletter_summary ∧
      (update_category s).search_tool_name = s.search_tool_name := by
  rcases update_category_cases s with heq | ⟨c, hc, hlt, heq⟩ <;>
    rw [heq] <;> exact ⟨rfl, rfl, rfl, rfl, rfl, rfl⟩

/-- The state reaching `update_category` within one bounded-loop pass:
category list unchanged. -/
theorem preUpdate_categories (E : NEnv) (s : NewsletterState) :
    (summarize_category E (search_news E (generate_search_query E s))).categories
      = s.categories := by
  rw [summarize_category_categories, search_news_categories,
      generate_search_query_categories]

theorem preUpdate_current (E : NEnv) (s : NewsletterState) :
    (summarize_category E (search_news E (generate_search_query E s))).current_category
      = s.current_category := by
  rw [summarize_category_current, search_news_current,
      generate_search_query_current]

theorem preUpdate_summaries (E : NEnv) (s : NewsletterState) :
    ∃ v, (summarize_category E (search_news E (generate_search_query E s))).category_summaries
      = dictInsert s.category_summaries (pyStr s.current_category) v := by
  obtain ⟨v, hv⟩ :=
    summarize_category_summaries E (search_news E (generate_search_query E s))
  rw [search_news_current, generate_search_query_current,
      search_news_summaries, generate_search_query_summaries] at hv
  exact ⟨v, hv⟩

/-- Pass-level facts about the bounded loop. -/
theorem pass_categories (E : NEnv) (s : NewsletterState) :
    (pass E s).categories = s.categories := by
  unfold pass
  rw [(update_category_preserves _).2.1, preUpdate_categories]

theorem pass_summaries (E : NEnv) (s : NewsletterState) :
    ∃ v, (pass E s).category_summaries =
      dictInsert s.category_summaries (pyStr s.current_category) v := by
  unfold pass
  obtain ⟨v, hv⟩ := preUpdate_summaries E s
  rw [(update_category_preserves _).2.2.1, hv]
  exact ⟨v, rfl⟩

theorem pass_keys_current (E : NEnv) (s : NewsletterState) (c : String)
    (hc : s.current_category = some c) :
    c ∈ dictKeys (pass E s).category_summaries := by
  obtain ⟨v, hv⟩ := pass_summaries E s
  rw [hv, hc]
  exact self_mem_dictKeys_insert _ _ _

theorem pass_keys_mono (E : NEnv) (s : NewsletterState) (x : String)
    (hx : x ∈ dictKeys s.category_summaries) :
    x ∈ dictKeys (pass E s).category_summaries := by
  obtain ⟨v, hv⟩ := pass_summaries E s
  rw [hv]
  exact mem_dictKeys_insert_of_mem _ _ _ _ hx

theorem NInv_pass (E : NEnv) (s : NewsletterState) (h : NInv s) :
    NInv (pass E s) :=
  NInv_update_category _
    (NInv_summarize_category E _ (NInv_search_news E _ (NInv_generate_search_query E s h)))

/-- Current-category analysis of one pass: either the pass did not advance
(and then the loop predicate is false afterwards unless the current index
has a successor), or it advanced to the next position. -/
theorem pass_current_cases (E : NEnv) (s : NewsletterState) (c : String)
    (hc : s.current_category = some c) :
    ((pass E s).current_category = some c ∧
      (¬ s.categories.indexOf c < s.categories.length ∨
        ¬ s.categories.indexOf c + 1 < s.categories.length)) ∨
      (s.categories.indexOf c + 1 < s.categories.length ∧
        (pass E s).current_category =
          some (s.categories.getD (s.categories.indexOf c + 1) "")) := by
  unfold pass
  set t := summarize_category E (search_news E (generate_search_query E s)) with ht
  have htc : t.current_category = some c := by
    rw [ht, preUpdate_current, hc]
  have htcats : t.categories = s.categories := by
    rw [ht, preUpdate_categories]
  rcases update_category_cases2 t with ⟨hn, _⟩ | ⟨c2, hc2, hnf, heq⟩ |
      ⟨c2, hc2, _, hns, heq⟩ | ⟨c2, hc2, hlt, heq⟩
  · rw [htc] at hn; cases hn
  · rw [htc] at hc2
    cases hc2
    rw [htcats] at hnf
    exact Or.inl ⟨by rw [heq, htc], Or.inl hnf⟩
  · rw [htc] at hc2
    cases hc2
    rw [htcats] at hns
    exact Or.inl ⟨by rw [heq, htc], Or.inr hns⟩
  · rw [htc] at hc2
    cases hc2
    rw [htcats] at hlt
    refine Or.inr ⟨hlt, ?_⟩
    rw [heq]
    simp [htcats]

/-- Key termination fact for the bounded loop: the continue predicate can
never be true after two consecutive passes.  After one pass the pass's
category has a summaries key; continuing requires the covered-position
count to stay below `min(K,2)` and the current index to advance, so a
second pass either covers a duplicated position pair or a second distinct
category, reaching the cap either way. -/
theorem pred_pass_pass_false (E : NEnv) (s : NewsletterState) (h : NInv s)
    (h1 : should_process_next_category (pass E s) = true) :
    should_process_next_category (pass E (pass E s)) = false := by
  obtain ⟨⟨c, hc, hcm⟩, hkeys, hnd⟩ := h
  obtain ⟨hcov1, c2, hc2, hadv2⟩ := predTrue_elim _ h1
  rw [pass_categories] at hadv2
  rw [pass_categories] at hcov1
  rcases pass_current_cases E s c hc with ⟨hcur, hbad⟩ | ⟨hlt, hcur⟩
  · rw [hcur] at hc2
    cases hc2
    rcases hbad with hnf | hns
    · exact absurd (Nat.lt_of_succ_lt hadv2) hnf
    · exact absurd hadv2 hns
  · rw [hcur] at hc2
    cases hc2
    have hiK : s.categories.indexOf c < s.categories.length := Nat.lt_of_succ_lt hlt
    have hgetc : s.categories.get ⟨s.categories.indexOf c, hiK⟩ = c :=
      List.indexOf_get hiK
    have hgetD : s.categories.getD (s.categories.indexOf c + 1) ""
        = s.categories.get ⟨s.categories.indexOf c + 1, hlt⟩ := by
      rw [List.getD_eq_get? , List.get?_eq_get hlt]
      rfl
    have hK2 : 2 ≤ s.categories.length := by omega
    have hk1 : c ∈ dictKeys (pass E s).category_summaries :=
      pass_keys_current E s c hc
    by_cases hcc : s.categories.getD (s.categories.indexOf c + 1) "" = c
    · have hp1 : s.categories.get? (s.categories.indexOf c) = some c := by
        rw [List.get?_eq_get hiK, hgetc]
      have hp2 : s.categories.get? (s.categories.indexOf c + 1) = some c := by
        rw [List.get?_eq_get hlt, ← hgetD, hcc]
      have hcnt : 2 ≤ s.categories.count c := two_le_count_of_pair hp1 hp2
      have hpc : dictContains (pass E s).category_summaries c = true :=
        (dictContains_iff _ _).mpr hk1
      have hcov : 2 ≤ processedCount (pass E s) := by
        unfold processedCount
        rw [pass_categories]
        calc 2 ≤ s.categories.count c := hcnt
          _ ≤ _ := count_le_length_filter hpc
      have hlt2 : processedCount (pass E s) < 2 :=
        Nat.lt_of_lt_of_le hcov1 (Nat.min_le_right _ _)
      omega
    · have hc2mem : s.categories.getD (s.categories.indexOf c + 1) "" ∈ s.categories :=
        getD_mem_of_lt _ _ hlt
      have hk2 : s.categories.getD (s.categories.indexOf c + 1) ""
          ∈ dictKeys (pass E (pass E s)).category_summaries :=
        pass_keys_current E (pass E s) _ hcur
      have hk1b : c ∈ dictKeys (pass E (pass E s)).category_summaries :=
        pass_keys_mono E (pass E s) c hk1
      apply predFalse_of_cov
      have hcov : 2 ≤ processedCount (pass E (pass E s)) := by
        unfold processedCount
        rw [pass_categories, pass_categories]
        exact two_le_length_filter hcm hc2mem (fun he => hcc he.symm)
          ((dictContains_iff _ _).mpr hk1b) ((dictContains_iff _ _).mpr hk2)
      rw [pass_categories, pass_categories]
      exact le_trans (Nat.min_le_right _ _) hcov

/-- Unrolling the executor over one pass of the bounded loop. -/
theorem newsExec_pass (E : NEnv) (fuel : Nat) (s : NewsletterState) :
    newsExec E (fuel + 4) .generateQuery s =
      newsExec E fuel
        (if should_process_next_category (pass E s) then .generateQuery
         else .processRemaining) (pass E s) := rfl

/-- Unrolling the executor over the tail of a run: catch-up pass, final
newsletter generation, end node, and termination. -/
theorem newsExec_tail (E : NEnv) (k : Nat) (s : NewsletterState) :
    newsExec E (k + 3) .processRemaining s =
      some (generate_newsletter (process_remaining_categories E s)) := rfl

/-- Main executor induction: any completed execution started at any
post-initialization node with the run invariant ends with the summaries
keys exactly the (unchanged) category list, without duplicates. -/
theorem newsExec_keys (E : NEnv) :
    ∀ (fuel : Nat) (n : NNode) (s sf : NewsletterState), n ≠ NNode.init →
      nodePre n s → newsExec E fuel n s = some sf →
      sf.categories = s.categories ∧
        (∀ x, x ∈ dictKeys sf.category_summaries ↔ x ∈ sf.categories) ∧
        (dictKeys sf.category_summaries).Nodup := by
  intro fuel
  induction fuel with
  | zero => intro n s sf _ _ h; simp [newsExec] at h
  | succ fuel ih =>
      intro n s sf hn hpre h
      cases n with
      | init => exact absurd rfl hn
      | generateQuery =>
          rw [show newsExec E (fuel + 1) .generateQuery s
              = newsExec E fuel .search (generate_search_query E s) from rfl] at h
          obtain ⟨hcats, hiff, hnd⟩ :=
            ih .search _ sf (by simp) (NInv_generate_search_query E s hpre) h
          exact ⟨by rw [hcats, generate_search_query_categories], hiff, hnd⟩
      | search =>
          rw [show newsExec E (fuel + 1) .search s
              = newsExec E fuel .summarize (search_news E s) from rfl] at h
          obtain ⟨hcats, hiff, hnd⟩ :=
            ih .summarize _ sf (by simp) (NInv_search_news E s hpre) h
          exact ⟨by rw [hcats, search_news_categories], hiff, hnd⟩
      | summarize =>
          rw [show newsExec E (fuel + 1) .summarize s
              = newsExec E fuel .updateCategory (summarize_category E s) from rfl] at h
          obtain ⟨hcats, hiff, hnd⟩ :=
            ih .updateCategory _ sf (by simp) (NInv_summarize_category E s hpre) h
          exact ⟨by rw [hcats, summarize_category_categories], hiff, hnd⟩
      | updateCategory =>
          rw [show newsExec E (fuel + 1) .updateCategory s
              = newsExec E fuel
                  (if should_process_next_category (update_category s)
                   then .generateQuery else .processRemaining)
                  (update_category s) from rfl] at h
          by_cases hp : should_process_next_category (update_category s) = true
          · rw [if_pos hp] at h
            obtain ⟨hcats, hiff, hnd⟩ :=
              ih .generateQuery _ sf (by simp) (NInv_update_category s hpre) h
            exact ⟨by rw [hcats, (update_category_preserves s).2.1], hiff, hnd⟩
          · rw [if_neg hp] at h
            obtain ⟨hcats, hiff, hnd⟩ :=
              ih .processRemaining _ sf (by simp) (NInv_update_category s hpre) h
            exact ⟨by rw [hcats, (update_category_preserves s).2.1], hiff, hnd⟩
      | processRemaining =>
          rw [show newsExec E (fuel + 1) .processRemaining s
              = newsExec E fuel .generateNewsletter
                  (process_remaining_categories E s) from rfl] at h
          obtain ⟨hcats, hiff, hnd⟩ :=
            ih .generateNewsletter _ sf (by simp) (NInv_process_remaining E s hpre) h
          exact ⟨by rw [hcats, process_remaining_categories_frame], hiff, hnd⟩
      | generateNewsletter =>
          rw [show newsExec E (fuel + 1) .generateNewsletter s
              = newsExec E fuel .endNode (generate_newsletter s) from rfl] at h
          have hg := NInv_generate_newsletter s hpre
          obtain ⟨hcats, hiff, hnd⟩ :=
            ih .endNode _ sf (by simp) ⟨hg.1, hg.2⟩ h
          exact ⟨by rw [hcats]; rfl, hiff, hnd⟩
      | endNode =>
          rw [show newsExec E (fuel + 1) .endNode s = some s from rfl] at h
          injection h with h
          subst h
          exact ⟨rfl, fun x =>
            ⟨fun hx => hpre.1.2.1 x hx, fun hx => hpre.2 x hx⟩, hpre.1.2.2⟩

/-- Every well-formed input is fully executed within 12 supersteps: the
bounded loop runs at most two passes before the predicate stops it. -/
theorem newsletterRun_total (E : NEnv) (s0 : NewsletterState)
    (hwf : WFInput s0) : ∃ sf, newsletterRun E 12 s0 = some sf := by
  unfold newsletterRun
  have hInv : NInv (initialize_state E s0) := initialize_state_NInv E s0 hwf
  rw [show newsExec E 12 NNode.init s0
      = newsExec E 11 .generateQuery (initialize_state E s0) from rfl]
  rw [show (11 : Nat) = 7 + 4 from rfl, newsExec_pass]
  by_cases hp1 : should_process_next_category (pass E (initialize_state E s0)) = true
  · rw [if_pos hp1]
    rw [show (7 : Nat) = 3 + 4 from rfl, newsExec_pass]
    have hp2 := pred_pass_pass_false E (initialize_state E s0) hInv hp1
    rw [hp2]
    simp only [Bool.false_eq_true, if_false]
    rw [show (3 : Nat) = 0 + 3 from rfl, newsExec_tail]
    exact ⟨_, rfl⟩
  · rw [if_neg hp1]
    rw [show (7 : Nat) = 4 + 3 from rfl, newsExec_tail]
    exact ⟨_, rfl⟩

end Newsletter

namespace Newsletter

/-- Symbolic execution of the bounded phase on the scenario input
`categories = ["A","B","C"]`: whatever the collaborators return, the first
pass processes "A" and continues, the second processes "B" and stops, with
exactly the keys "A" and "B" present at the stop. -/
theorem scenario_bounded_phase (E : NEnv) :
    should_process_next_category
        (pass E (initialize_state E (freshInput ["A", "B", "C"]))) = true ∧
      should_process_next_category
        (pass E (pass E (initialize_state E (freshInput ["A", "B", "C"])))) = false ∧
      dictKeys (pass E (pass E (initialize_state E
        (freshInput ["A", "B", "C"])))).category_summaries = ["A", "B"] := by
  set t0 := initialize_state E (freshInput ["A", "B", "C"]) with ht0
  have hcur0 : t0.current_category = some "A" := rfl
  have hcats0 : t0.categories = ["A", "B", "C"] := rfl
  have hsums0 : t0.category_summaries = [] := rfl
  obtain ⟨v1, hv1⟩ := pass_summaries E t0
  rw [hsums0, hcur0] at hv1
  have hv1b : (pass E t0).category_summaries = [("A", v1)] := by
    rw [hv1]; rfl
  rcases pass_current_cases E t0 "A" hcur0 with ⟨_, hbad⟩ | ⟨_, hcur1⟩
  · rw [hcats0] at hbad
    rcases hbad with hh | hh
    · exact absurd (by decide) hh
    · exact absurd (by decide) hh
  · rw [hcats0] at hcur1
    have hgd : (["A", "B", "C"] : List String).getD
        ((["A", "B", "C"] : List String).indexOf "A" + 1) "" = "B" := by decide
    rw [hgd] at hcur1
    have hcov1 : processedCount (pass E t0) = 1 := by
      unfold processedCount
      rw [pass_categories, hcats0, hv1b]
      simp +decide [dictContains]
    have hpred1 : should_process_next_category (pass E t0) = true := by
      unfold should_process_next_category
      rw [hcov1, pass_categories, hcats0, hcur1]
      simp +decide
    have hwf : WFInput (freshInput ["A", "B", "C"]) := Or.inl rfl
    have hinv : NInv t0 := initialize_state_NInv E _ hwf
    have hpred2 : should_process_next_category (pass E (pass E t0)) = false :=
      pred_pass_pass_false E t0 hinv hpred1
    obtain ⟨v2, hv2⟩ := pass_summaries E (pass E t0)
    rw [hv1b, hcur1] at hv2
    have hkeys2 : dictKeys (pass E (pass E t0)).category_summaries = ["A", "B"] := by
      rw [hv2]; rfl
    exact ⟨hpred1, hpred2, hkeys2⟩

/-- The newsletter fallback query always contains the literal
" latest news " and is therefore never empty. -/
theorem fallbackQuery_ne_empty (s : NewsletterState) : fallbackQuery s ≠ "" := by
  intro h
  have hlen := congrArg String.length h
  unfold fallbackQuery at hlen
  rw [String.length_append, String.length_append] at hlen
  have h13 : (" latest news " : String).length = 13 := by decide
  rw [h13] at hlen
  have h0 : ("" : String).length = 0 := rfl
  rw [h0] at hlen
  omega

end Newsletter

/-- C10: the `update_category` node modifies at most `current_category`,
`search_query` and `web_research_results`: the category list, the summaries
dict, the gathered sources, the date, the newsletter text and the tool name
are unchanged, whether or not a next category exists and whether or not the
index lookup fails internally. -/
theorem update_category_frame_effect (s : Newsletter.NewsletterState) :
    (Newsletter.update_category s).categories = s.categories ∧
      (Newsletter.update_category s).category_summaries = s.category_summaries ∧
      (Newsletter.update_category s).sources_gathered = s.sources_gathered ∧
      (Newsletter.update_category s).date = s.date ∧
      (Newsletter.update_category s).newsletter_summary = s.newsletter_summary ∧
      (Newsletter.update_category s).search_tool_name = s.search_tool_name := by
  have h := Newsletter.update_category_preserves s
  exact ⟨h.2.1, h.2.2.1, h.2.2.2.1, h.1, h.2.2.2.2.1, h.2.2.2.2.2⟩

/-- C5: on a state in which every declared category already has a summaries
entry, the catch-up pass `process_remaining_categories` is a no-op (so in
particular `perCategoryResults` is unchanged), and running it twice equals
running it once. -/
theorem catchup_noop_when_complete (E : Newsletter.NEnv)
    (s : Newsletter.NewsletterState)
    (h : ∀ c ∈ s.categories, dictContains s.category_summaries c = true) :
    Newsletter.process_remaining_categories E s = s ∧
      Newsletter.process_remaining_categories E
          (Newsletter.process_remaining_categories E s)
        = Newsletter.process_remaining_categories E s := by
  have hf : s.categories.filter
      (fun c => !dictContains s.category_summaries c) = [] := by
    rw [List.filter_eq_nil]
    intro a ha
    simp [h a ha]
  have h1 : Newsletter.process_remaining_categories E s = s := by
    unfold Newsletter.process_remaining_categories
    rw [hf]
    rfl
  exact ⟨h1, by rw [h1, h1]⟩

/-- Witness for C5 at a concrete complete state. -/
theorem catchup_noop_when_complete_witness :
    (∀ c ∈ completeState.categories,
        dictContains completeState.category_summaries c = true) ∧
      Newsletter.process_remaining_categories sampleEnv completeState
        = completeState :=
  ⟨by decide, (catchup_noop_when_complete sampleEnv completeState (by decide)).1⟩

/-- C8 (amended): a non-null `currentCategory` that is not an element of
`categories` is handled inside the nodes, not surfaced as a fatal error:
`update_category` catches the failed index lookup and leaves the state
unchanged, `should_process_next_category` catches it and routes to the
catch-up phase, and the executor then runs the remaining nodes to normal
completion. -/
theorem invalid_category_handled_internally (E : Newsletter.NEnv)
    (s : Newsletter.NewsletterState) (c : String)
    (hc : s.current_category = some c) (hmem : c ∉ s.categories) :
    Newsletter.update_category s = s ∧
      Newsletter.should_process_next_category s = false ∧
      ∀ k, Newsletter.newsExec E (k + 4) .updateCategory s
        = some (Newsletter.generate_newsletter
            (Newsletter.process_remaining_categories E s)) := by
  have hidx : ¬ s.categories.indexOf c < s.categories.length := by
    simp [List.indexOf_lt_length, hmem]
  have hupd : Newsletter.update_category s = s := by
    unfold Newsletter.update_category
    rw [hc]
    simp [hidx]
  have hpred : Newsletter.should_process_next_category s = false :=
    Newsletter.predFalse_of_not_found s c hc hidx
  refine ⟨hupd, hpred, ?_⟩
  intro k
  rw [show Newsletter.newsExec E (k + 4) .updateCategory s
      = Newsletter.newsExec E (k + 3)
          (if Newsletter.should_process_next_category (Newsletter.update_category s)
           then .generateQuery else .processRemaining)
          (Newsletter.update_category s) from rfl]
  rw [hupd, hpred]
  simp only [Bool.false_eq_true, if_false]
  exact Newsletter.newsExec_tail E k s

/-- Witness for C8's amended statement at a concrete state. -/
theorem invalid_category_handled_internally_witness :
    rogueInput.current_category = some "Z" ∧ "Z" ∉ rogueInput.categories ∧
      Newsletter.update_category rogueInput = rogueInput :=
  ⟨rfl, by decide,
    (invalid_category_handled_internally sampleEnv rogueInput "Z" rfl (by decide)).1⟩

/-- Counterexample to C8 as stated: from a state whose current category "Z"
is not among its categories ["A"], the executor does not stop — it proceeds
through the catch-up pass and the final nodes and completes the run, ending
with the declared category processed. -/
theorem invalid_category_run_completes_counterexample :
    rogueInput.current_category = some "Z" ∧ "Z" ∉ rogueInput.categories ∧
      (Newsletter.newsExec sampleEnv 4 .updateCategory rogueInput).map
        (fun s => dictKeys s.category_summaries) = some ["A"] := by
  refine ⟨rfl, by decide, by decide⟩

/-- C4 (amended): for states whose current category occurs in the category
list, the post-`update_category` predicate stops exactly when the
processed-position count has reached `min(K, 2)` or the current category's
first occurrence is the last position; and on the scenario
`categories = ["A","B","C"]` the bounded phase performs exactly two passes
and stops with exactly the two categories "A" and "B" present.  (When the
current category does not occur in the list the predicate also stops; see
the counterexample.) -/
theorem bounded_phase_predicate_characterization :
    (∀ (s : Newsletter.NewsletterState) (c : String),
        s.current_category = some c → c ∈ s.categories →
        (Newsletter.should_process_next_category s = false ↔
          (Newsletter.spec_cap_reached s ∨ Newsletter.spec_on_last s c))) ∧
      ∀ E : Newsletter.NEnv,
        Newsletter.should_process_next_category
            (Newsletter.pass E (Newsletter.initialize_state E
              (freshInput ["A", "B", "C"]))) = true ∧
          Newsletter.should_process_next_category
            (Newsletter.pass E (Newsletter.pass E (Newsletter.initialize_state E
              (freshInput ["A", "B", "C"])))) = false ∧
          dictKeys (Newsletter.pass E (Newsletter.pass E
            (Newsletter.initialize_state E
              (freshInput ["A", "B", "C"])))).category_summaries = ["A", "B"] := by
  constructor
  · intro s c hc hmem
    have hidx : s.categories.indexOf c < s.categories.length :=
      List.indexOf_lt_length.mpr hmem
    unfold Newsletter.should_process_next_category Newsletter.spec_cap_reached
      Newsletter.spec_on_last
    by_cases h1 : Newsletter.processedCount s ≥ min s.categories.length 2
    · rw [if_pos h1]
      exact ⟨fun _ => Or.inl h1, fun _ => rfl⟩
    · rw [if_neg h1, hc]
      dsimp only
      rw [if_pos hidx]
      constructor
      · intro hd
        have hnd : ¬ s.categories.indexOf c + 1 < s.categories.length := by
          simpa using hd
        right
        omega
      · rintro (hcap | hlast)
        · exact absurd hcap h1
        · have : ¬ s.categories.indexOf c + 1 < s.categories.length := by omega
          simpa using this
  · exact Newsletter.scenario_bounded_phase

/-- Witness for C4's amended characterization at a concrete state, together
with the scenario conjunct at the concrete failing environment. -/
theorem bounded_phase_predicate_characterization_witness :
    completeState.current_category = some "A" ∧ "A" ∈ completeState.categories ∧
      (Newsletter.should_process_next_category completeState = false ↔
        (Newsletter.spec_cap_reached completeState ∨
          Newsletter.spec_on_last completeState "A")) :=
  ⟨rfl, by decide,
    bounded_phase_predicate_characterization.1 completeState "A" rfl (by decide)⟩

/-- Counterexample to C4 as stated: on a state with categories ["A","B"],
no summaries and current category "Z", the predicate stops (returns false)
although neither the claimed condition (a) — the processed count 0 has not
reached min(2,2) — nor condition (b) — "Z" is not the last category "B" —
holds. -/
theorem bounded_phase_predicate_counterexample :
    Newsletter.should_process_next_category rogueInputAB = false ∧
      ¬ Newsletter.spec_cap_reached rogueInputAB ∧
      rogueInputAB.current_category = some "Z" ∧
      rogueInputAB.categories.getLast? = some "B" ∧ "Z" ≠ "B" := by
  refine ⟨by decide, ?_, rfl, by decide, by decide⟩
  unfold Newsletter.spec_cap_reached
  decide

/-- C3 (amended): for every well-formed input (current category unset or
declared) whose effective category list is duplicate-free, a full
newsletter run completes (12 supersteps always suffice) and the final
state's summaries dict has exactly one key per effective category —
whatever the collaborators return and however the work was split between
the bounded phase and the catch-up pass. -/
theorem newsletter_run_keys_complete (E : Newsletter.NEnv)
    (s0 : Newsletter.NewsletterState) (hwf : Newsletter.WFInput s0) :
    (∃ sf, Newsletter.newsletterRun E 12 s0 = some sf) ∧
      ∀ fuel sf, Newsletter.newsletterRun E fuel s0 = some sf →
        sf.categories = Newsletter.effCategories s0 ∧
          (∀ x, x ∈ dictKeys sf.category_summaries ↔
            x ∈ Newsletter.effCategories s0) ∧
          ((Newsletter.effCategories s0).Nodup →
            (dictKeys sf.category_summaries).length
              = (Newsletter.effCategories s0).length) := by
  refine ⟨Newsletter.newsletterRun_total E s0 hwf, ?_⟩
  intro fuel sf h
  cases fuel with
  | zero => simp [Newsletter.newsletterRun, Newsletter.newsExec] at h
  | succ fuel =>
      unfold Newsletter.newsletterRun at h
      rw [show Newsletter.newsExec E (fuel + 1) .init s0
          = Newsletter.newsExec E fuel .generateQuery
              (Newsletter.initialize_state E s0) from rfl] at h
      obtain ⟨hcats, hiff, hnd⟩ :=
        Newsletter.newsExec_keys E fuel .generateQuery _ sf (by simp)
          (Newsletter.initialize_state_NInv E s0 hwf) h
      have hcats2 : sf.categories = Newsletter.effCategories s0 := by
        rw [hcats, Newsletter.initialize_state_categories]
      refine ⟨hcats2, fun x => by rw [← hcats2]; exact hiff x, ?_⟩
      intro hnodup
      have hperm : (dictKeys sf.category_summaries).Perm
          (Newsletter.effCategories s0) :=
        (List.perm_ext_iff_of_nodup hnd hnodup).mpr
          (fun a => by rw [← hcats2]; exact hiff a)
      exact hperm.length_eq

/-- Witness for C3's amended statement: the default scenario input is
well-formed, its effective category list is duplicate-free, and the run
completes within 12 supersteps. -/
theorem newsletter_run_keys_complete_witness :
    Newsletter.WFInput (freshInput ["A", "B", "C"]) ∧
      (Newsletter.effCategories (freshInput ["A", "B", "C"])).Nodup ∧
      ∃ sf, Newsletter.newsletterRun sampleEnv 12 (freshInput ["A", "B", "C"])
        = some sf :=
  ⟨Or.inl rfl, by decide,
    (newsletter_run_keys_complete sampleEnv (freshInput ["A", "B", "C"])
      (Or.inl rfl)).1⟩

/-- Counterexample to C3 as stated: with the duplicated category list
["A","A"] (length 2) a full run ends with a single key, and with the
declared list ["A"] (length 1) but a foreign caller-supplied current
category "Z" a full run ends with two keys — in neither case exactly K. -/
theorem newsletter_run_keys_count_counterexample :
    (freshInput ["A", "A"]).categories.length = 2 ∧
      (Newsletter.newsletterRun sampleEnv 12 (freshInput ["A", "A"])).map
        (fun s => (dictKeys s.category_summaries).length) = some 1 ∧
      rogueInput.categories.length = 1 ∧
      (Newsletter.newsletterRun sampleEnv 12 rogueInput).map
        (fun s => (dictKeys s.category_summaries).length) = some 2 := by
  refine ⟨rfl, by decide, rfl, by decide⟩

namespace DeepResearch

/-- Under a raise-free oracle every node application returns a state. -/
theorem applyR_ok (O : ROracle) (h : RaiseFree O) (n : RNode) (s : ResearchState) :
    ∃ t, applyR O n s = .ok t := by
  cases n with
  | init => exact ⟨_, rfl⟩
  | generateQuery =>
      obtain ⟨p, hp⟩ := h.genQuery s.research_topic
      exact ⟨{ s with search_query := p.getD s.research_topic }, by
        simp only [applyR, generate_search_query]
        rw [hp]⟩
  | searchWeb =>
      obtain ⟨v, hv⟩ := h.search s.search_query
      exact ⟨searchUpdate v s, by
        simp only [applyR, search_web]
        rw [hv]⟩
  | updateSummary =>
      obtain ⟨txt, ht⟩ := h.summarize (currentSummaryArg s) s.web_research_results
      exact ⟨{ s with running_summary := txt, web_research_results := [] }, by
        simp only [applyR, update_summary]
        rw [ht]⟩
  | reflect =>
      obtain ⟨p, hp⟩ := h.reflect s.running_summary s.research_topic
      refine ⟨{ s with
          search_query := p.getD ("latest developments in " ++ s.research_topic),
          research_loop_count := s.research_loop_count + 1 }, ?_⟩
      simp only [applyR, reflect_and_identify_gaps, hp]

/-- Every node of the research graph has an outgoing edge: the graph
declares no terminal node. -/
theorem researchNext_isSome (n : RNode) (s : ResearchState) :
    ∃ n2, researchNext n s = some n2 := by
  cases n <;> exact ⟨_, rfl⟩

/-- Under a raise-free oracle every superstep moves to another running
configuration. -/
theorem researchStep_running (O : ROracle) (h : RaiseFree O) (n : RNode)
    (s : ResearchState) :
    ∃ n2 t, researchStep O (.running n s) = .running n2 t := by
  obtain ⟨t, ht⟩ := applyR_ok O h n s
  obtain ⟨n2, hn2⟩ := researchNext_isSome n t
  refine ⟨n2, t, ?_⟩
  simp only [researchStep, ht, hn2]

/-- Single-superstep characterizations used to trace concrete runs. -/
theorem step_generateQuery (O : ROracle) (s : ResearchState) (p : Option String)
    (hp : O.genQuery s.research_topic = .reply p) :
    researchStep O (.running .generateQuery s)
      = .running .searchWeb { s with search_query := p.getD s.research_topic } := by
  simp only [researchStep, applyR, researchNext, generate_search_query, hp]

theorem step_searchWeb (O : ROracle) (s : ResearchState) (v : SearchValue)
    (hv : O.search s.search_query = .ok v) :
    researchStep O (.running .searchWeb s)
      = .running .updateSummary (searchUpdate v s) := by
  simp only [researchStep, applyR, researchNext, search_web, hv]

theorem step_updateSummary (O : ROracle) (s : ResearchState) (txt : String)
    (ht : O.summarize (currentSummaryArg s) s.web_research_results = .reply txt) :
    researchStep O (.running .updateSummary s)
      = .running .reflect { s with running_summary := txt,
                                   web_research_results := [] } := by
  simp only [researchStep, applyR, researchNext, update_summary, ht]

theorem step_reflect (O : ROracle) (s : ResearchState) (p : Option String)
    (hp : O.reflect s.running_summary s.research_topic = .reply p) :
    researchStep O (.running .reflect s)
      = .running
          (if should_continue_research
              { s with search_query :=
                         p.getD ("latest developments in " ++ s.research_topic),
                       research_loop_count := s.research_loop_count + 1 }
           then .searchWeb else .updateSummary)
          { s with search_query :=
                     p.getD ("latest developments in " ++ s.research_topic),
                   research_loop_count := s.research_loop_count + 1 } := by
  simp only [researchStep, applyR, researchNext, reflect_and_identify_gaps, hp]

/-- `searchUpdate` does not touch the loop counter, the bound, the summary,
the topic or the query. -/
theorem searchUpdate_frame (v : SearchValue) (s : ResearchState) :
    (searchUpdate v s).research_loop_count = s.research_loop_count ∧
      (searchUpdate v s).max_iterations = s.max_iterations ∧
      (searchUpdate v s).running_summary = s.running_summary ∧
      (searchUpdate v s).research_topic = s.research_topic := by
  cases v <;> exact ⟨rfl, rfl, rfl, rfl⟩

end DeepResearch

/-- The concrete raise-free oracle really is raise-free. -/
theorem sampleROracle_raiseFree : DeepResearch.RaiseFree sampleROracle :=
  ⟨fun _ => ⟨none, rfl⟩, fun _ => ⟨.withResults [], rfl⟩,
    fun _ _ => ⟨"", rfl⟩, fun _ _ => ⟨none, rfl⟩⟩

/-- C1 (code bug): as long as no collaborator call raises, the research
graph never reaches a terminal configuration — after any number of
supersteps the run is still at some node.  The conditional edge's stop
branch routes `reflect` to `update_summary`, whose unconditional edge leads
back to `reflect`, and no node of the graph lacks a successor, so the
workflow cannot terminate after `N` cycles (or at all). -/
theorem research_run_never_terminates (O : DeepResearch.ROracle)
    (h : DeepResearch.RaiseFree O) (s0 : DeepResearch.ResearchState) (k : Nat) :
    (∃ n s, DeepResearch.researchRun O s0 k = .running n s) ∧
      ∀ sf, DeepResearch.researchRun O s0 k ≠ DeepResearch.RunStatus.finished sf := by
  have hrun : ∃ n s, DeepResearch.researchRun O s0 k = .running n s := by
    induction k with
    | zero => exact ⟨.init, s0, rfl⟩
    | succ k ih =>
        obtain ⟨n, s, hs⟩ := ih
        obtain ⟨n2, t, ht⟩ := DeepResearch.researchStep_running O h n s
        refine ⟨n2, t, ?_⟩
        rw [show DeepResearch.researchRun O s0 (k + 1)
            = DeepResearch.researchStep O (DeepResearch.researchRun O s0 k) from rfl,
          hs, ht]
  refine ⟨hrun, ?_⟩
  intro sf hf
  obtain ⟨n, s, hs⟩ := hrun
  rw [hs] at hf
  cases hf

/-- Witness for C1's statement at the concrete raise-free oracle, a
max_iterations = 1 input, and 40 supersteps. -/
theorem research_run_never_terminates_witness :
    DeepResearch.RaiseFree sampleROracle ∧
      ∃ n s, DeepResearch.researchRun sampleROracle (sampleResearchInput 1) 40
        = .running n s :=
  ⟨sampleROracle_raiseFree,
    (research_run_never_terminates sampleROracle sampleROracle_raiseFree
      (sampleResearchInput 1) 40).1⟩

/-- C2 (code bug): the loop-count invariant fails on reachable states.
With `max_iterations = 1` and any raise-free collaborators, after 7
supersteps the run is still going and its `research_loop_count` is 2,
strictly above `max_iterations` — reaching the bound does not terminate
the loop, it keeps cycling through `update_summary`/`reflect`. -/
theorem research_loop_count_exceeds_max (O : DeepResearch.ROracle)
    (h : DeepResearch.RaiseFree O) (s0 : DeepResearch.ResearchState)
    (hmax : s0.max_iterations = 1) :
    ∃ n s, DeepResearch.researchRun O s0 7 = .running n s ∧
      s.max_iterations < s.research_loop_count := by
  set t1 := DeepResearch.initialize_state s0 with ht1
  have h1 : DeepResearch.researchRun O s0 1 = .running .generateQuery t1 := rfl
  obtain ⟨p1, hp1⟩ := h.genQuery t1.research_topic
  have h2 : DeepResearch.researchRun O s0 2
      = .running .searchWeb { t1 with search_query := p1.getD t1.research_topic } := by
    rw [show DeepResearch.researchRun O s0 2
        = DeepResearch.researchStep O (DeepResearch.researchRun O s0 1) from rfl,
      h1, DeepResearch.step_generateQuery O t1 p1 hp1]
  set t2 := { t1 with search_query := p1.getD t1.research_topic } with ht2
  obtain ⟨v1, hv1⟩ := h.search t2.search_query
  have h3 : DeepResearch.researchRun O s0 3
      = .running .updateSummary (DeepResearch.searchUpdate v1 t2) := by
    rw [show DeepResearch.researchRun O s0 3
        = DeepResearch.researchStep O (DeepResearch.researchRun O s0 2) from rfl,
      h2, DeepResearch.step_searchWeb O t2 v1 hv1]
  set t3 := DeepResearch.searchUpdate v1 t2 with ht3
  obtain ⟨x1, hx1⟩ :=
    h.summarize (DeepResearch.currentSummaryArg t3) t3.web_research_results
  have h4 : DeepResearch.researchRun O s0 4
      = .running .reflect { t3 with running_summary := x1,
                                    web_research_results := [] } := by
    rw [show DeepResearch.researchRun O s0 4
        = DeepResearch.researchStep O (DeepResearch.researchRun O s0 3) from rfl,
      h3, DeepResearch.step_updateSummary O t3 x1 hx1]
  set t4 := { t3 with running_summary := x1, web_research_results := [] } with ht4
  have hc4 : t4.research_loop_count = 0 := by
    show t3.research_loop_count = 0
    rw [ht3, (DeepResearch.searchUpdate_frame v1 t2).1]
    rfl
  have hm4 : t4.max_iterations = 1 := by
    show t3.max_iterations = 1
    rw [ht3, (DeepResearch.searchUpdate_frame v1 t2).2.1]
    exact hmax
  obtain ⟨p2, hp2⟩ := h.reflect t4.running_summary t4.research_topic
  have h5 := DeepResearch.step_reflect O t4 p2 hp2
  set t5 := { t4 with
      search_query := p2.getD ("latest developments in " ++ t4.research_topic),
      research_loop_count := t4.research_loop_count + 1 } with ht5
  have hc5 : t5.research_loop_count = 1 := by
    show t4.research_loop_count + 1 = 1
    rw [hc4]
  have hm5 : t5.max_iterations = 1 := hm4
  have hsc5 : DeepResearch.should_continue_research t5 = false := by
    unfold DeepResearch.should_continue_research
    rw [hc5, hm5]
    decide
  have h5b : DeepResearch.researchRun O s0 5 = .running .updateSummary t5 := by
    rw [show DeepResearch.researchRun O s0 5
        = DeepResearch.researchStep O (DeepResearch.researchRun O s0 4) from rfl,
      h4, h5, hsc5]
    simp only [Bool.false_eq_true, if_false]
  obtain ⟨x2, hx2⟩ :=
    h.summarize (DeepResearch.currentSummaryArg t5) t5.web_research_results
  have h6 : DeepResearch.researchRun O s0 6
      = .running .reflect { t5 with running_summary := x2,
                                    web_research_results := [] } := by
    rw [show DeepResearch.researchRun O s0 6
        = DeepResearch.researchStep O (DeepResearch.researchRun O s0 5) from rfl,
      h5b, DeepResearch.step_updateSummary O t5 x2 hx2]
  set t6 := { t5 with running_summary := x2, web_research_results := [] } with ht6
  obtain ⟨p3, hp3⟩ := h.reflect t6.running_summary t6.research_topic
  have h7 := DeepResearch.step_reflect O t6 p3 hp3
  set t7 := { t6 with
      search_query := p3.getD ("latest developments in " ++ t6.research_topic),
      research_loop_count := t6.research_loop_count + 1 } with ht7
  have hc7 : t7.research_loop_count = 2 := by
    show t6.research_loop_count + 1 = 2
    show t5.research_loop_count + 1 = 2
    rw [hc5]
  have hm7 : t7.max_iterations = 1 := hm5
  have hsc7 : DeepResearch.should_continue_research t7 = false := by
    unfold DeepResearch.should_continue_research
    rw [hc7, hm7]
    decide
  have h7b : DeepResearch.researchRun O s0 7 = .running .updateSummary t7 := by
    rw [show DeepResearch.researchRun O s0 7
        = DeepResearch.researchStep O (DeepResearch.researchRun O s0 6) from rfl,
      h6, h7, hsc7]
    simp only [Bool.false_eq_true, if_false]
  refine ⟨.updateSummary, t7, h7b, ?_⟩
  rw [hc7, hm7]
  omega

/-- Witness for C2 at the concrete raise-free oracle and a concrete
max_iterations = 1 input. -/
theorem research_loop_count_exceeds_max_witness :
    DeepResearch.RaiseFree sampleROracle ∧
      (sampleResearchInput 1).max_iterations = 1 ∧
      ∃ n s, DeepResearch.researchRun sampleROracle (sampleResearchInput 1) 7
        = .running n s ∧ s.max_iterations < s.research_loop_count :=
  ⟨sampleROracle_raiseFree, rfl,
    research_loop_count_exceeds_max sampleROracle sampleROracle_raiseFree
      (sampleResearchInput 1) rfl⟩

namespace DeepResearch

theorem searchUpdate_sources (v : SearchValue) (s : ResearchState) :
    ∃ us, (searchUpdate v s).sources_gathered = s.sources_gathered ++ us := by
  cases v with
  | withResults rs => exact ⟨rs.map SearchResult.url, rfl⟩
  | dictNoResults => exact ⟨[], by simp [searchUpdate]⟩
  | nonDict => exact ⟨[], by simp [searchUpdate]⟩

/-- No research node other than `initialize` ever shortens
`sources_gathered`. -/
theorem applyR_sources_mono (O : ROracle) (n : RNode) (s s2 : ResearchState)
    (hn : n ≠ .init) (hok : applyR O n s = .ok s2) :
    s.sources_gathered.length ≤ s2.sources_gathered.length := by
  cases n with
  | init => exact absurd rfl hn
  | generateQuery =>
      simp only [applyR, generate_search_query] at hok
      cases hg : O.genQuery s.research_topic with
      | raise => rw [hg] at hok; cases hok
      | reply p =>
          rw [hg] at hok
          injection hok with hok
          subst hok
          exact Nat.le_refl _
  | searchWeb =>
      simp only [applyR, search_web] at hok
      cases hs : O.search s.search_query with
      | raise => rw [hs] at hok; cases hok
      | ok v =>
          rw [hs] at hok
          injection hok with hok
          subst hok
          obtain ⟨us, hus⟩ := searchUpdate_sources v s
          rw [hus, List.length_append]
          exact Nat.le_add_right _ _
  | updateSummary =>
      simp only [applyR, update_summary] at hok
      cases hs : O.summarize (currentSummaryArg s) s.web_research_results with
      | raise => rw [hs] at hok; cases hok
      | reply txt =>
          rw [hs] at hok
          injection hok with hok
          subst hok
          exact Nat.le_refl _
  | reflect =>
      simp only [applyR, reflect_and_identify_gaps] at hok
      cases hs : O.reflect s.running_summary s.research_topic with
      | raise => rw [hs] at hok; cases hok
      | reply p =>
          rw [hs] at hok
          injection hok with hok
          subst hok
          exact Nat.le_refl _

end DeepResearch

namespace Newsletter

theorem foldl_processOne_sources (E : NEnv) :
    ∀ (l : List String) (s : NewsletterState),
      s.sources_gathered.length
        ≤ ((l.foldl (processOne E) s)).sources_gathered.length := by
  intro l
  induction l with
  | nil => intro s; exact Nat.le_refl _
  | cons c t ih =>
      intro s
      simp only [List.foldl_cons]
      refine Nat.le_trans ?_ (ih (processOne E s c))
      obtain ⟨us, hus⟩ := processOne_sources E s c
      rw [hus, List.length_append]
      exact Nat.le_add_right _ _

/-- No newsletter node other than `initialize` ever shortens
`sources_gathered`. -/
theorem applyN_sources_mono (E : NEnv) (n : NNode) (s : NewsletterState)
    (hn : n ≠ .init) :
    s.sources_gathered.length ≤ (applyN E n s).sources_gathered.length := by
  cases n with
  | init => exact absurd rfl hn
  | generateQuery =>
      show _ ≤ (generate_search_query E s).sources_gathered.length
      rw [generate_search_query_sources]
  | search =>
      show _ ≤ (search_news E s).sources_gathered.length
      obtain ⟨us, hus⟩ := search_news_sources E s
      rw [hus, List.length_append]
      exact Nat.le_add_right _ _
  | summarize =>
      show _ ≤ (summarize_category E s).sources_gathered.length
      rw [summarize_category_sources]
  | updateCategory =>
      show _ ≤ (update_category s).sources_gathered.length
      rw [(update_category_preserves s).2.2.2.1]
  | processRemaining =>
      show _ ≤ (process_remaining_categories E s).sources_gathered.length
      exact foldl_processOne_sources E _ s
  | generateNewsletter => exact Nat.le_refl _
  | endNode => exact Nat.le_refl _

end Newsletter

/-- C6 (amended): `sourcesGathered` never shrinks across any node
invocation other than the two `initialize` nodes; `initialize` resets it to
the empty list, so from an input whose `sourcesGathered` is empty the
length is non-decreasing across every node invocation of either workflow,
`initialize` included. -/
theorem sources_gathered_monotone :
    (∀ (O : DeepResearch.ROracle) (n : DeepResearch.RNode)
        (s s2 : DeepResearch.ResearchState), n ≠ .init →
        DeepResearch.applyR O n s = .ok s2 →
        s.sources_gathered.length ≤ s2.sources_gathered.length) ∧
      (∀ (E : Newsletter.NEnv) (n : Newsletter.NNode)
          (s : Newsletter.NewsletterState), n ≠ .init →
          s.sources_gathered.length
            ≤ (Newsletter.applyN E n s).sources_gathered.length) ∧
      (∀ s : DeepResearch.ResearchState, s.sources_gathered = [] →
        s.sources_gathered.length
          ≤ (DeepResearch.initialize_state s).sources_gathered.length) ∧
      ∀ (E : Newsletter.NEnv) (s : Newsletter.NewsletterState),
        s.sources_gathered = [] →
        s.sources_gathered.length
          ≤ (Newsletter.initialize_state E s).sources_gathered.length := by
  refine ⟨DeepResearch.applyR_sources_mono, Newsletter.applyN_sources_mono, ?_, ?_⟩
  · intro s h
    simp [h]
  · intro E s h
    simp [h]

/-- Witness for C6 at a concrete newsletter node and state. -/
theorem sources_gathered_monotone_witness :
    Newsletter.NNode.search ≠ Newsletter.NNode.init ∧
      completeState.sources_gathered.length
        ≤ (Newsletter.applyN sampleEnv .search completeState).sources_gathered.length :=
  ⟨by decide,
    sources_gathered_monotone.2.1 sampleEnv .search completeState (by decide)⟩

/-- Counterexample to C6 as stated: the research `initialize` node run on
an input carrying one stale source returns a state with strictly fewer
gathered sources — the node does shorten the list. -/
theorem sources_gathered_init_counterexample :
    (DeepResearch.initialize_state staleSourcesInput).sources_gathered.length
      < staleSourcesInput.sources_gathered.length := by
  decide

/-- C7 (amended): a structured-output parse failure in `generateQuery`
makes the research node fall back to the raw topic string — which is empty
exactly when the topic is empty — and makes the newsletter node fall back
to the query "<category> latest news <date>", which is never empty. -/
theorem query_fallback_on_parse_failure :
    (∀ (O : DeepResearch.ROracle) (s : DeepResearch.ResearchState),
        O.genQuery s.research_topic = .reply none →
        DeepResearch.generate_search_query O s
          = .ok { s with search_query := s.research_topic } ∧
          (s.research_topic ≠ "" →
            ({ s with search_query := s.research_topic} :
              DeepResearch.ResearchState).search_query ≠ "")) ∧
      ∀ (E : Newsletter.NEnv) (s : Newsletter.NewsletterState),
        E.genQuery s.current_category s.date = .error () →
        Newsletter.generate_search_query E s
          = { s with search_query := Newsletter.fallbackQuery s } ∧
          Newsletter.fallbackQuery s ≠ "" := by
  constructor
  · intro O s hp
    refine ⟨?_, fun hne => hne⟩
    unfold DeepResearch.generate_search_query
    rw [hp]
    rfl
  · intro E s he
    refine ⟨?_, Newsletter.fallbackQuery_ne_empty s⟩
    unfold Newsletter.generate_search_query
    rw [he]

/-- Witness for C7 at the concrete failing environment. -/
theorem query_fallback_on_parse_failure_witness :
    sampleEnv.genQuery completeState.current_category completeState.date
        = Except.error () ∧
      Newsletter.generate_search_query sampleEnv completeState
        = { completeState with
              search_query := Newsletter.fallbackQuery completeState } :=
  ⟨rfl, (query_fallback_on_parse_failure.2 sampleEnv completeState rfl).1⟩

/-- Counterexample to C7 as stated: on a research state whose topic is the
empty string, a parse failure leaves `searchQuery` equal to the empty
string after `generateQuery` — the query is empty. -/
theorem query_fallback_empty_counterexample :
    sampleROracle.genQuery emptyTopicInput.research_topic = .reply none ∧
      DeepResearch.generate_search_query sampleROracle emptyTopicInput
        = .ok emptyTopicInput ∧
      emptyTopicInput.search_query = "" :=
  ⟨rfl, rfl, rfl⟩

/-- C9 (amended): the newsletter search node catches both failure modes of
the search provider — a raising call, and a malformed non-dict return
(whose `.get` raises `AttributeError` inside the `try` block) — and
returns normally with `{"results": []}` written into the state; the
research search node does not catch — a raising provider makes the node
itself raise into the executor. -/
theorem search_failure_containment :
    (∀ (E : Newsletter.NEnv) (s : Newsletter.NewsletterState),
        E.search s.search_query = SearchOutcome.raise →
        Newsletter.search_news E s
          = { s with web_research_results := .value (.withResults []) }) ∧
      (∀ (E : Newsletter.NEnv) (s : Newsletter.NewsletterState),
        E.search s.search_query = SearchOutcome.ok .nonDict →
        Newsletter.search_news E s
          = { s with web_research_results := .value (.withResults []) }) ∧
      ∀ (O : DeepResearch.ROracle) (s : DeepResearch.ResearchState),
        O.search s.search_query = SearchOutcome.raise →
        DeepResearch.search_web O s = .error () := by
  refine ⟨?_, ?_, ?_⟩
  · intro E s hr
    unfold Newsletter.search_news
    rw [hr]
  · intro E s hr
    unfold Newsletter.search_news
    rw [hr]
  · intro O s hr
    unfold DeepResearch.search_web
    rw [hr]

/-- Witness for C9 at concrete environments exercising both newsletter
failure modes. -/
theorem search_failure_containment_witness :
    sampleEnv.search completeState.search_query = SearchOutcome.raise ∧
      Newsletter.search_news sampleEnv completeState
        = { completeState with
              web_research_results := .value (.withResults []) } ∧
      nonDictEnv.search completeState.search_query = SearchOutcome.ok .nonDict ∧
      Newsletter.search_news nonDictEnv completeState
        = { completeState with
              web_research_results := .value (.withResults []) } :=
  ⟨rfl, search_failure_containment.1 sampleEnv completeState rfl, rfl,
    search_failure_containment.2.1 nonDictEnv completeState rfl⟩

/-- Counterexample to C9 as stated: a raising search provider makes the
research `search_web` node end in an exception that reaches the executor
rather than in an empty-result state. -/
theorem research_search_raises_counterexample :
    raisingROracle.search (sampleResearchInput 1).search_query
        = SearchOutcome.raise ∧
      DeepResearch.search_web raisingROracle (sampleResearchInput 1)
        = .error () :=
  ⟨rfl, rfl⟩
